import Mathlib

/-!
# Verification of the LinkedIn job-alert crawl–parse–dedupe–classify pipeline

Shallow embedding of `linkedin_job_scraper.py`.  Pure helpers (identity
extraction, keyword matching, location rotation) become Lean functions;
the stateful pipeline (`process_jobs`, `run_category`, `check_new_jobs`)
becomes explicit state passing over a `PipeState` that records the shared
dedupe ledger, the per-call in-run id set, an event trace (fetches,
e-mail notifications, sheet insertions, ledger additions) and an error
flag for uncaught Python exceptions.

Text is modelled as Lean `String`s restricted to the ASCII fragment the
scraper actually manipulates (so Python's `str.lower` / `str.strip`
coincide with the ASCII versions defined below), and all string
operations are implemented as structural recursions over `String.data`
so every definition evaluates by `decide` in the kernel.
-/

namespace JobScraper

/-! ## ASCII string primitives (mirroring Python `str` methods) -/

/-- Python whitespace recognised by `str.strip()` (ASCII fragment). -/
def isSpaceChar (c : Char) : Bool :=
  c == ' ' || c == '\t' || c == '\n' || c == '\r' || c == '\x0b' || c == '\x0c'

/-- Drop leading whitespace. -/
def dropSpaces : List Char → List Char
  | [] => []
  | c :: cs => if isSpaceChar c then dropSpaces cs else c :: cs

/-- `str.strip()` on a character list. -/
def trimChars (l : List Char) : List Char :=
  ((dropSpaces l).reverse |> dropSpaces).reverse

/-- `str.strip()`. -/
def strTrim (s : String) : String := String.mk (trimChars s.data)

/-- `str.lower()` (ASCII fragment, matching `Char.toLower`). -/
def strLower (s : String) : String := String.mk (s.data.map Char.toLower)

/-- `s[:n]` for strings. -/
def strTake (n : Nat) (s : String) : String := String.mk (s.data.take n)

/-- Characters strictly before the first occurrence of `c` (the whole list
if `c` is absent); models `s.split(c, 1)[0]`. -/
def takeUntilChar (c : Char) : List Char → List Char
  | [] => []
  | x :: xs => if x == c then [] else x :: takeUntilChar c xs

/-- `s.split(c, 1)[0]` for strings. -/
def strTakeUntil (c : Char) (s : String) : String :=
  String.mk (takeUntilChar c s.data)

/-- Characters strictly after the first occurrence of `c` (`[]` if absent). -/
def afterChar (c : Char) : List Char → List Char
  | [] => []
  | x :: xs => if x == c then xs else afterChar c xs

/-- Worker for `splitOnCharL`; `acc` holds the current field reversed. -/
def splitOnCharGo (sep : Char) : List Char → List Char → List (List Char)
  | [], acc => [acc.reverse]
  | x :: xs, acc =>
    if x == sep then acc.reverse :: splitOnCharGo sep xs []
    else splitOnCharGo sep xs (x :: acc)

/-- Python `s.split(sep)` for a one-character separator (empty fields kept). -/
def splitOnCharL (sep : Char) (l : List Char) : List (List Char) :=
  splitOnCharGo sep l []

/-- Python `sep.join(parts)`. -/
def joinSep (sep : String) : List String → String
  | [] => ""
  | [s] => s
  | s :: rest => s ++ sep ++ joinSep sep rest

/-- `needle` is a prefix of `hay` (Boolean). -/
def isPrefOf : List Char → List Char → Bool
  | [], _ => true
  | _ :: _, [] => false
  | a :: as, b :: bs => a == b && isPrefOf as bs

/-- Python `needle in hay` substring containment on character lists. -/
def containsSub (hay needle : List Char) : Bool :=
  match hay with
  | [] => needle.isEmpty
  | _ :: tl => isPrefOf needle hay || containsSub tl needle

/-! ## SHA-256 (`hashlib.sha256(...).hexdigest()`), on byte lists

Bytes and 32-bit words are `Nat`s reduced by `% 2^32` where overflow
matters.  Inputs are the UTF-8 bytes of the URL; for the ASCII strings
manipulated here the UTF-8 encoding is the code-point sequence. -/

def w32 (x : Nat) : Nat := x % 4294967296

def rotr32 (n x : Nat) : Nat := w32 ((x >>> n) ||| (x <<< (32 - n)))

def shaCh (x y z : Nat) : Nat := (x &&& y) ^^^ ((x ^^^ 4294967295) &&& z)

def shaMaj (x y z : Nat) : Nat := (x &&& y) ^^^ (x &&& z) ^^^ (y &&& z)

def bigSigma0 (x : Nat) : Nat := rotr32 2 x ^^^ rotr32 13 x ^^^ rotr32 22 x

def bigSigma1 (x : Nat) : Nat := rotr32 6 x ^^^ rotr32 11 x ^^^ rotr32 25 x

def smallSigma0 (x : Nat) : Nat := rotr32 7 x ^^^ rotr32 18 x ^^^ (x >>> 3)

def smallSigma1 (x : Nat) : Nat := rotr32 17 x ^^^ rotr32 19 x ^^^ (x >>> 10)

/-- The 64 SHA-256 round constants (FIPS 180-4), in decimal. -/
def shaK : List Nat :=
  [1116352408, 1899447441, 3049323471, 3921009573, 961987163, 1508970993,
   2453635748, 2870763221, 3624381080, 310598401, 607225278, 1426881987,
   1925078388, 2162078206, 2614888103, 3248222580, 3835390401, 4022224774,
   264347078, 604807628, 770255983, 1249150122, 1555081692, 1996064986,
   2554220882, 2821834349, 2952996808, 3210313671, 3336571891, 3584528711,
   113926993, 338241895, 666307205, 773529912, 1294757372, 1396182291,
   1695183700, 1986661051, 2177026350, 2456956037, 2730485921, 2820302411,
   3259730800, 3345764771, 3516065817, 3600352804, 4094571909, 275423344,
   430227734, 506948616, 659060556, 883997877, 958139571, 1322822218,
   1537002063, 1747873779, 1955562222, 2024104815, 2227730452, 2361852424,
   2428436474, 2756734187, 3204031479, 3329325298]

/-- The initial SHA-256 hash state (FIPS 180-4), in decimal. -/
def shaH0 : List Nat :=
  [1779033703, 3144134277, 1013904242, 2773480762,
   1359893119, 2600822924, 528734635, 1541459225]

/-- Big-endian 8-byte encoding of `n` (the padded bit length). -/
def beBytes8 (n : Nat) : List Nat :=
  [(n >>> 56) % 256, (n >>> 48) % 256, (n >>> 40) % 256, (n >>> 32) % 256,
   (n >>> 24) % 256, (n >>> 16) % 256, (n >>> 8) % 256, n % 256]

/-- SHA-256 padding: append `0x80`, zero bytes to 56 mod 64, then the
64-bit big-endian message bit length. -/
def padMsg (msg : List Nat) : List Nat :=
  let z := (119 - msg.length % 64) % 64
  msg ++ (128 :: List.replicate z 0) ++ beBytes8 (msg.length * 8)

/-- Group 4 bytes (big-endian) into one 32-bit word. -/
def bytesToWords : List Nat → List Nat
  | b0 :: b1 :: b2 :: b3 :: rest =>
    (b0 * 16777216 + b1 * 65536 + b2 * 256 + b3) :: bytesToWords rest
  | _ => []

/-- Extend a 16-word schedule by `n` more words. -/
def extendW : Nat → List Nat → List Nat
  | 0, w => w
  | n + 1, w =>
    let t := w.length
    let nw := w32 (smallSigma1 (w.getD (t - 2) 0) + w.getD (t - 7) 0 +
                   smallSigma0 (w.getD (t - 15) 0) + w.getD (t - 16) 0)
    extendW n (w ++ [nw])

/-- One SHA-256 compression round. -/
def shaRound (st : List Nat) (kw : Nat × Nat) : List Nat :=
  match st with
  | [a, b, c, d, e, f, g, h] =>
    let t1 := w32 (h + bigSigma1 e + shaCh e f g + kw.1 + kw.2)
    let t2 := w32 (bigSigma0 a + shaMaj a b c)
    [w32 (t1 + t2), a, b, c, w32 (d + t1), e, f, g]
  | other => other

/-- Compress one 64-byte chunk into the running hash state. -/
def shaCompress (hs : List Nat) (chunk : List Nat) : List Nat :=
  let w := extendW 48 (bytesToWords chunk)
  let fin := (shaK.zip w).foldl shaRound hs
  List.zipWith (fun a b => w32 (a + b)) hs fin

/-- Split into 64-byte chunks (fuel-based so the kernel can evaluate it). -/
def chunk64Go : Nat → List Nat → List (List Nat)
  | 0, _ => []
  | _, [] => []
  | fuel + 1, l => l.take 64 :: chunk64Go fuel (l.drop 64)

def chunk64 (l : List Nat) : List (List Nat) := chunk64Go (l.length + 1) l

/-- SHA-256 digest of a byte list, as eight 32-bit words. -/
def sha256words (msg : List Nat) : List Nat :=
  (chunk64 (padMsg msg)).foldl shaCompress shaH0

def hexDigit (n : Nat) : Char :=
  if n < 10 then Char.ofNat (48 + n) else Char.ofNat (87 + n)

/-- Lowercase 8-hex-digit rendering of a 32-bit word. -/
def hexWord (w : Nat) : List Char :=
  [hexDigit ((w >>> 28) % 16), hexDigit ((w >>> 24) % 16),
   hexDigit ((w >>> 20) % 16), hexDigit ((w >>> 16) % 16),
   hexDigit ((w >>> 12) % 16), hexDigit ((w >>> 8) % 16),
   hexDigit ((w >>> 4) % 16), hexDigit (w % 16)]

/-- UTF-8 bytes of an ASCII string (code points, valid for ASCII input). -/
def strBytes (s : String) : List Nat := s.data.map Char.toNat

/-- `hashlib.sha256(s.encode("utf-8")).hexdigest()`. -/
def sha256hex (s : String) : String :=
  String.mk (((sha256words (strBytes s)).map hexWord).flatten)

/-! ## Identity Extractor (`extract_job_id`, source lines 131-154)

The three compiled patterns `/jobs/view/(\d+)`, `currentJobId=(\d+)` and
`viewJobId=(\d+)` (all `re.IGNORECASE`) are searches for a literal marker
followed immediately by at least one digit; `re.search` returns the
leftmost such occurrence and the capture is the maximal digit run. -/

/-- Maximal leading run of ASCII digits. -/
def takeDigits : List Char → List Char
  | [] => []
  | c :: cs => if c.isDigit then c :: takeDigits cs else []

/-- Leftmost occurrence of the (lowercase) `marker` in the lowercased
input that is followed by at least one digit; returns the digit run.
Models `re.search(marker + r"(\d+)", url, re.IGNORECASE)`. -/
def searchNumAfter (marker : List Char) : List Char → Option String
  | [] => none
  | c :: tl =>
    if isPrefOf marker ((c :: tl).map Char.toLower) then
      match takeDigits ((c :: tl).drop marker.length) with
      | [] => searchNumAfter marker tl
      | d :: ds => some (String.mk (d :: ds))
    else searchNumAfter marker tl

/-- The `job_id_regexes` loop (source lines 131-135, 141-144). -/
def regex_id (url : String) : Option String :=
  match searchNumAfter "/jobs/view/".data url.data with
  | some jid => some jid
  | none =>
    match searchNumAfter "currentjobid=".data url.data with
    | some jid => some jid
    | none => searchNumAfter "viewjobid=".data url.data

/-! `urlparse(url).query` and `parse_qs` (source lines 146-152), restricted
to ASCII input without percent-escapes: the fragment (after the first
`#`) is removed, the query is the text after the first remaining `?`,
fields are split on `&`, fields without `=` and fields with an empty
value are dropped (`keep_blank_values=False`), and `qs[key][0]` is the
first value bound to the (case-sensitively matched) key. -/

/-- Query-string of a URL: text after the first `?` of the pre-fragment part. -/
def urlQueryChars (url : List Char) : List Char :=
  afterChar '?' (takeUntilChar '#' url)

/-- Split a field at its first `=`; `none` if there is no `=`. -/
def splitFirstEq : List Char → Option (List Char × List Char)
  | [] => none
  | x :: xs =>
    if x == '=' then some ([], xs)
    else (splitFirstEq xs).map (fun p => (x :: p.1, p.2))

/-- `parse_qs` field list: (key, value) pairs in order, blank values dropped. -/
def qsFields (q : List Char) : List (List Char × List Char) :=
  (splitOnCharL '&' q).filterMap (fun f =>
    match splitFirstEq f with
    | none => none
    | some (k, v) => if v.isEmpty then none else some (k, v))

/-- First value bound to `key` (Python `qs[key][0]`). -/
def qsLookup (key : List Char) : List (List Char × List Char) → Option (List Char)
  | [] => none
  | (k, v) :: tl => if k == key then some v else qsLookup key tl

/-- The query-parameter loop of `extract_job_id` (source lines 146-152). -/
def query_param_id (url : String) : Option String :=
  let qs := qsFields (urlQueryChars url.data)
  match qsLookup "currentJobId".data qs with
  | some v => some (String.mk v)
  | none =>
    match qsLookup "viewJobId".data qs with
    | some v => some (String.mk v)
    | none =>
      match qsLookup "jobId".data qs with
      | some v => some (String.mk v)
      | none => none

/-- `extract_job_id` (source lines 137-154).  Note the hash fallback
digests the *raw* `url` argument (query string included), not the
canonicalized URL. -/
def extract_job_id (url : String) : String :=
  if url = "" then ""
  else
    match regex_id url with
    | some jid => jid
    | none =>
      match query_param_id url with
      | some jid => jid
      | none => "u_" ++ strTake 16 (sha256hex url)

/-! ## Classifier and small helpers -/

/-- `matches_any` (source lines 228-230): case-insensitive substring
match of any keyword (lower-cased) inside the already-lowercased title. -/
def matches_any (title_lower : String) (keywords : List String) : Bool :=
  keywords.any (fun k => containsSub title_lower.data (strLower k).data)

/-- `extract_country` (source lines 175-177). -/
def extract_country (location : String) : String :=
  let loc := strLower location
  if containsSub loc.data "united states".data || containsSub loc.data "usa".data
  then "United States" else "Other"

/-- `parse_recipients` (source lines 156-157). -/
def parse_recipients (emails_str : String) : List String :=
  ((splitOnCharL ',' emails_str.data).map (fun e => String.mk (trimChars e))).filter
    (fun e => e != "")

/-- The keyword cleaning of `run_category` (source line 300):
`[k.strip() for k in keywords if k and k.strip()]`. -/
def cleaned_keywords (keywords : List String) : List String :=
  (keywords.filter (fun k => k != "" && strTrim k != "")).map strTrim

/-- `rotating_slice` (source lines 116-124).  The `seed` is the caller's
rotation seed (the source defaults it to the current UTC hour, an
external input of the run); Python's `%` on a positive modulus agrees
with `Int.emod`. -/
def rotating_slice (seq : List String) (size : Nat) (seed : Int) : List String :=
  if seq.isEmpty then []
  else if seq.length ≤ size then seq
  else
    let start := (seed % (seq.length : Int)).toNat
    ((seq.drop start) ++ (seq.take start)).take size

/-- The location element text (source line 279):
`location_tag.get_text(strip=True) if location_tag else "Unknown"`. -/
def cardLocationText : Option String → String
  | some t => strTrim t
  | none => "Unknown"

/-! ## Data model of the pipeline -/

/-- One result-card fragment (`<li>` element) as seen by the parser.
`link` is `none` when no element with class `*_full-link` exists; it is
`some none` when the element exists but carries no `href` attribute (in
which case `link_tag["href"]` raises `KeyError`); `some (some h)` when
the `href` is `h`.  The other fields are the text contents of the
title/subtitle/location elements when present. -/
structure Card where
  link : Option (Option String)
  title : Option String
  company : Option String
  location : Option String
deriving DecidableEq, Repr

/-- The search query sent to the endpooint (`q` dict, source lines 302-307,
with `start` set by `process_jobs` at line 239). -/
structure Query where
  keywords : String
  location : String
  f_TPR : String
  sortBy : String
  start : Nat
deriving DecidableEq, Repr

/-- Outcome of one page fetch.  `fail` covers a raised
`requests.RequestException`, a non-200 status and an empty body (source
lines 240-248); `page cards` is a 200 response whose body parses to the
given list of `<li>` result cards. -/
inductive FetchResult where
  | fail
  | page (cards : List Card)
deriving DecidableEq, Repr

/-- Observable effects of a run, in chronological order. -/
inductive Event where
  /-- `SESSION.get(BASE_URL, params=query_params)` was issued. -/
  | fetched (q : Query)
  /-- `send_email` reached `smtplib` (recipients nonempty); `ok` records
  whether SMTP delivery succeeded (failures are caught and logged). -/
  | emailSent (subject body : String) (recipients : List String) (ok : Bool)
  /-- `insert_job` attempted `ws.insert_row(..., index=2)`; `ok` records
  whether the write succeeded (failures are caught and logged). -/
  | rowInserted (sheet job_id job_url title company location category country : String)
      (ok : Bool)
  /-- `seen_ids.add(job_id)` (source line 292). -/
  | ledgerAdded (job_id : String)
deriving DecidableEq, Repr

/-- Pipeline state threaded through the run: the shared dedupe ledger
(`seen_ids`, mutated in place), the per-`process_jobs` in-run id set,
the event trace, and whether an uncaught exception has been raised
(after which the Python run unwinds, so every step absorbs). -/
structure PipeState where
  seen : List String
  inRun : List String
  events : List Event
  err : Bool
deriving Repr

/-- External world: the fetch oracle (deterministic per query, modelling
"the same fetch results"), and per-call success of the best-effort SMTP
send and sheet write, indexed by the position in the event trace. -/
structure World where
  fetch : Query → FetchResult
  emailOk : Nat → Bool
  insertOk : Nat → Bool

/-- Module-level configuration (source lines 23-26, 108-114) plus the
rotation seed (the current UTC hour at run time). -/
structure Config where
  maxPages : Nat
  perRunLocations : Nat
  timeWindow : String
  enforceCountry : Bool
  locations : List String
  seed : Int

/-- The per-category arguments of `process_jobs` (source line 235):
keywords, category name, expected country, recipients, target sheet. -/
structure Ctx where
  keywords : List String
  category : String
  expected_country : String
  recipients : List String
  sheet : String

/-- A configured category as wired in `check_new_jobs`. -/
structure Category where
  name : String
  keywords : List String
  recipients_env : String
  sheet : String

/-! ## The Category Pipeline -/

/-- `send_email` (source lines 159-173): no-op on an empty recipient
list, otherwise attempts SMTP delivery; any exception is caught and
logged, so the caller's state is affected only by the recorded event. -/
def send_email_step (W : World) (st : PipeState) (subject body : String)
    (to_emails : List String) : PipeState :=
  if to_emails = [] then st
  else { st with
    events := st.events ++ [Event.emailSent subject body to_emails (W.emailOk st.events.length)] }

/-- `insert_job` (source lines 214-226): attempts the sheet write; any
exception is caught and logged.  The stored hyperlink formula wraps
`job_url`; we record `job_url` itself. -/
def insert_job_step (W : World) (st : PipeState)
    (sheet job_id job_url title company location category country : String) : PipeState :=
  { st with
    events := st.events ++
      [Event.rowInserted sheet job_id job_url title company location category country
        (W.insertOk st.events.length)] }

/-- The job id computed for a card (source lines 263-269): extract from
the raw (trimmed) href; if that returns the empty string (empty href),
fall back to hashing the canonical URL with an `h_` prefix. -/
def job_id_of (href : String) : String :=
  let raw_url := strTrim href
  let jid := extract_job_id raw_url
  if jid = "" then "h_" ++ strTake 16 (sha256hex (strTakeUntil '?' raw_url)) else jid

/-- The classification test of source line 282. -/
def classifies (cfg : Config) (cx : Ctx) (title_lower country : String) : Bool :=
  matches_any title_lower cx.keywords &&
    (!cfg.enforceCountry || country == cx.expected_country)

/-- Processing of one card (source lines 255-293).  A card lacking a
link, title or company element is skipped; a link element without an
`href` raises `KeyError` (uncaught), setting `err`; a duplicate id (in
the shared ledger or the in-run set) is skipped; a new id is added to
the in-run set, and if it classifies, the pipeline e-mails, inserts the
sheet row, and adds the id to the shared ledger, in that order. -/
def processCard (cfg : Config) (W : World) (cx : Ctx) (st : PipeState) (card : Card) :
    PipeState :=
  if st.err then st else
  match card.link, card.title, card.company with
  | some link_el, some title_el, some company_el =>
    (match link_el with
     | none => { st with err := true }
     | some href =>
       let raw_url := strTrim href
       let job_url := strTakeUntil '?' raw_url
       let job_id := job_id_of href
       if job_id ∈ st.seen ∨ job_id ∈ st.inRun then st
       else
         let st1 := { st with inRun := job_id :: st.inRun }
         let title := strTrim title_el
         let title_lower := strLower title
         let company := strTrim company_el
         let location := cardLocationText card.location
         let country := extract_country location
         if classifies cfg cx title_lower country then
           let subject := "🔔 New " ++ cx.category ++ " Job"
           let body := title ++ " at " ++ company ++ " — " ++ location ++ "\n" ++ job_url
           let st2 := send_email_step W st1 subject body cx.recipients
           let st3 := insert_job_step W st2 cx.sheet job_id job_url title company location
             cx.category country
           { st3 with seen := job_id :: st3.seen,
                      events := st3.events ++ [Event.ledgerAdded job_id] }
         else st1)
  | _, _, _ => st

/-- The page loop of `process_jobs` (source lines 238-293): up to
`remaining` further pages starting at `pageIdx`; each iteration sets
`start := pageIdx * 25`, issues the GET, and stops on a failed fetch or
an empty card list; an uncaught exception stops everything. -/
def pagesLoop (cfg : Config) (W : World) (cx : Ctx) (q : Query) :
    Nat → Nat → PipeState → PipeState
  | 0, _, st => st
  | remaining + 1, pageIdx, st =>
    if st.err then st else
    let q' := { q with start := pageIdx * 25 }
    let st' := { st with events := st.events ++ [Event.fetched q'] }
    match W.fetch q' with
    | FetchResult.fail => st'
    | FetchResult.page cards =>
      if cards.isEmpty then st'
      else pagesLoop cfg W cx q remaining (pageIdx + 1)
        (cards.foldl (fun s c => processCard cfg W cx s c) st')

/-- `process_jobs` (source lines 235-293): fresh in-run id set, then the
page loop from page index 0. -/
def process_jobs (cfg : Config) (W : World) (cx : Ctx) (q0 : Query) (st : PipeState) :
    PipeState :=
  if st.err then st
  else pagesLoop cfg W cx q0 cfg.maxPages 0 { st with inRun := [] }

/-- `run_category` (source lines 295-316): parse recipients, clean the
keyword list, and run `process_jobs` for each rotated location. -/
def run_category (cfg : Config) (W : World) (c : Category) (st : PipeState) : PipeState :=
  let recipients := parse_recipients c.recipients_env
  let cleaned := cleaned_keywords c.keywords
  (rotating_slice cfg.locations cfg.perRunLocations cfg.seed).foldl
    (fun st loc =>
      process_jobs cfg W
        { keywords := cleaned, category := c.name, expected_country := "United States",
          recipients := recipients, sheet := c.sheet }
        { keywords := joinSep " OR " cleaned, location := loc, f_TPR := cfg.timeWindow,
          sortBy := "DD", start := 0 }
        st)
    st

/-- The orchestration loop over configured categories, all sharing one
ledger state (source lines 330-332). -/
def runCategories (cfg : Config) (W : World) (cats : List Category) (st : PipeState) :
    PipeState :=
  cats.foldl (fun st c => run_category cfg W c st) st

/-- Initial state of a run: the ledger seeded from the union of the
categories' persisted ids (`preload_all_ids`, an external store read). -/
def initState (seeded : List String) : PipeState :=
  { seen := seeded, inRun := [], events := [], err := false }

/-- Target title lists (source lines 31-55). -/
def TARGET_TITLES_DATA : List String :=
  ["Data Analyst", "Data Engineer", "DevOps Engineer", "Site Reliability Engineer", "SRE",
   "Cloud Engineer", "AWS DevOps Engineer", "Azure DevOps Engineer", "Platform Engineer",
   "Infrastructure Engineer", "Cloud Operations Engineer", "Reliability Engineer",
   "Automation Engineer", "Cloud Consultant", "Build Engineer", "CICD Engineer",
   "Systems Reliability Engineer", "Observability Engineer", "Kubernetes Engineer",
   "DevSecOps Engineer", "Infrastructure Developer", "Platform Reliability Engineer",
   "Automation Specialist"]

def TARGET_TITLES_CYBER : List String :=
  ["Cybersecurity Engineer", "Security Engineer", "SOC Analyst", "SOC Analyst III",
   "Pentester", "GRC Analyst", "IAM Analyst", "IAM Engineer", "IAM Administrator",
   "Cloud Security", "Cybersecurity Analyst", "Cyber Security SOC Analyst II",
   "Incident Response Analyst", "Threat Detection Analyst", "SIEM Analyst",
   "Senior Cybersecurity Analyst", "Security Monitoring Analyst",
   "Information Security Analyst", "Cloud Security Analyst", "Azure Security Analyst",
   "Identity & Access Specialist", "SailPoint Developer", "SailPoint Consultant",
   "Azure IAM Engineer", "Cloud IAM Analyst", "System Engineer", "System Engineer I",
   "System Engineer II", "System Engineer III"]

def TARGET_TITLES_ORACLE : List String :=
  ["Oracle Developer", "OIC Developer", "Oracle Cloud Engineer", "Oracle Integration Cloud",
   "Oracle Fusion Developer", "Oracle HCM", "Oracle ERP", "OIC Consultant",
   "Oracle Cloud Consultant"]

/-- The recipient and sheet configuration read from the environment. -/
structure Env where
  cyberRecipients : String
  dataRecipients : String
  oracleRecipients : String
  sheetCyber : String
  sheetData : String
  sheetOracle : String

/-- `check_new_jobs` (source lines 321-332): one shared ledger seeded
from all sheets, then the three categories in order. -/
def check_new_jobs (cfg : Config) (W : World) (env : Env) (seeded : List String) :
    PipeState :=
  runCategories cfg W
    [{ name := "Cybersecurity", keywords := TARGET_TITLES_CYBER,
       recipients_env := env.cyberRecipients, sheet := env.sheetCyber },
     { name := "DevOps", keywords := TARGET_TITLES_DATA,
       recipients_env := env.dataRecipients, sheet := env.sheetData },
     { name := "Oracle", keywords := TARGET_TITLES_ORACLE,
       recipients_env := env.oracleRecipients, sheet := env.sheetOracle }]
    (initState seeded)

/-! ## Trace observations -/

/-- Count of events satisfying a predicate. -/
def countEv (p : Event → Bool) (evs : List Event) : Nat := (evs.filter p).length

/-- Is this event the acceptance (sheet-row persistence) of id `id`? -/
def isAcceptEv (id : String) : Event → Bool
  | Event.rowInserted _ jid _ _ _ _ _ _ _ => jid == id
  | _ => false

/-- Number of times `id` was accepted (notified and persisted) in a trace. -/
def acceptCount (id : String) (evs : List Event) : Nat := countEv (isAcceptEv id) evs

/-- Is this event an e-mail notification? -/
def isNotifyEv : Event → Bool
  | Event.emailSent _ _ _ _ => true
  | _ => false

/-- Is this event a sheet-row insertion? -/
def isRowEv : Event → Bool
  | Event.rowInserted _ _ _ _ _ _ _ _ _ => true
  | _ => false

/-- Is this event a page fetch? -/
def isFetchEv : Event → Bool
  | Event.fetched _ => true
  | _ => false

/-- The queries of the fetch events of a trace, in order. -/
def fetchedQueries (evs : List Event) : List Query :=
  evs.filterMap (fun e => match e with | Event.fetched q => some q | _ => none)

/-- The notification events of one accepted card. -/
def notifyEvents (W : World) (cx : Ctx) (pos : Nat) (subject body : String) : List Event :=
  if cx.recipients = [] then []
  else [Event.emailSent subject body cx.recipients (W.emailOk pos)]

/-! ## Concrete data for witness scenarios -/

/-- A small concrete configuration used by witness scenarios. -/
def cfg0 : Config :=
  { maxPages := 2, perRunLocations := 1, timeWindow := "r86400",
    enforceCountry := false, locations := ["New York, NY"], seed := 0 }

/-- A concrete world whose fetches always return an empty page. -/
def W0 : World :=
  { fetch := fun _ => FetchResult.page [], emailOk := fun _ => true,
    insertOk := fun _ => true }

/-- Concrete per-category context for witness scenarios. -/
def cx0 : Ctx :=
  { keywords := ["sre"], category := "DevOps", expected_country := "United States",
    recipients := ["a@b.com"], sheet := "Sheet4" }

/-- Concrete starting state with one pre-seeded ledger id. -/
def st0 : PipeState := initState ["111"]

/-- A well-formed posting card used by run-level witness scenarios. -/
def cardG : Card :=
  ⟨some (some "https://www.linkedin.com/jobs/view/123456789/"), some "SRE Engineer",
    some "Acme", some "New York, United States"⟩

/-- A world whose every fetch returns the single posting `cardG`. -/
def W1 : World :=
  { fetch := fun _ => FetchResult.page [cardG], emailOk := fun _ => true,
    insertOk := fun _ => true }

/-- Configuration with one location and a one-page ceiling for witness runs. -/
def cfg1 : Config :=
  { maxPages := 1, perRunLocations := 1, timeWindow := "r86400",
    enforceCountry := false, locations := ["X"], seed := 0 }

/-- First category of the cross-category scenarios: matches `cardG`. -/
def catA1 : Category :=
  { name := "A", keywords := ["sre"], recipients_env := "a@b.com", sheet := "S1" }

/-- Second category of the cross-category scenarios: also matches `cardG`. -/
def catB1 : Category :=
  { name := "B", keywords := ["engineer"], recipients_env := "b@b.com", sheet := "S2" }

/-- A card with no recognised sub-elements at all (an ad/malformed card). -/
def blankCard : Card := ⟨none, none, none, none⟩

/-- Configuration with a two-page ceiling for the pagination scenario. -/
def cfg2 : Config :=
  { maxPages := 2, perRunLocations := 1, timeWindow := "r86400",
    enforceCountry := false, locations := ["X"], seed := 0 }

/-- A world where page 0 returns 25 cards and every later page is empty. -/
def W2 : World :=
  { fetch := fun q =>
      if q.start == 0 then FetchResult.page (List.replicate 25 blankCard)
      else FetchResult.page [],
    emailOk := fun _ => true, insertOk := fun _ => true }

/-- A concrete query for the pagination scenario. -/
def q2 : Query :=
  { keywords := "sre", location := "X", f_TPR := "r86400", sortBy := "DD", start := 0 }

/-- A category whose configured keywords are all empty or whitespace. -/
def catBlank : Category :=
  { name := "Blank", keywords := ["", "  "], recipients_env := "a@b.com", sheet := "S9" }

/-- A malformed card whose link element is present but has no `href`
attribute: processing it raises an uncaught `KeyError`. -/
def cardBad : Card := ⟨some none, some "t", some "c", none⟩

/-- A category whose query is answered with the `href`-less card. -/
def catC1 : Category :=
  { name := "Bad", keywords := ["alpha"], recipients_env := "", sheet := "S1" }

/-- A category whose query is answered with the well-formed `cardG`. -/
def catC2 : Category :=
  { name := "Good", keywords := ["engineer"], recipients_env := "e@b.com", sheet := "S2" }

/-- A world that serves the `href`-less card to `catC1`'s query and the
well-formed posting to every other query. -/
def W3 : World :=
  { fetch := fun q =>
      if q.keywords == "alpha" then FetchResult.page [cardBad]
      else FetchResult.page [cardG],
    emailOk := fun _ => true, insertOk := fun _ => true }

/-- Does every link element of this card carry an `href` attribute (so
that `link_tag["href"]` cannot raise)? -/
def cardHrefOk (c : Card) : Bool :=
  match c.link with
  | some none => false
  | _ => true

/-- The dedupe invariant of a pipeline stage `f`: the ledger only grows;
the new events extend the old ones; an id already in the ledger is never
accepted again; at most one acceptance per id is added; and an accepted
id ends up in the ledger. -/
structure Steps (f : PipeState → PipeState) : Prop where
  mono : ∀ st, st.seen ⊆ (f st).seen
  delta : ∀ st, ∃ d, (f st).events = st.events ++ d ∧
    (∀ id, id ∈ st.seen → acceptCount id d = 0) ∧
    (∀ id, acceptCount id d ≤ 1) ∧
    (∀ id, 1 ≤ acceptCount id d → id ∈ (f st).seen)

/-! ## Characterization of `processCard` -/

theorem processCard_absorb (cfg : Config) (W : World) (cx : Ctx) (st : PipeState)
    (c : Card) (h : st.err = true) : processCard cfg W cx st c = st := by
  simp [processCard, h]

theorem processCard_discard (cfg : Config) (W : World) (cx : Ctx) (st : PipeState)
    (c : Card) (h : c.link = none ∨ c.title = none ∨ c.company = none) :
    processCard cfg W cx st c = st := by
  obtain ⟨l, t, co, lo⟩ := c
  cases l <;> cases t <;> cases co <;> simp_all [processCard]

theorem processCard_keyError (cfg : Config) (W : World) (cx : Ctx) (st : PipeState)
    (titleT compT : String) (locT : Option String) (herr : st.err = false) :
    processCard cfg W cx st ⟨some none, some titleT, some compT, locT⟩ =
      { st with err := true } := by
  simp [processCard, herr]

theorem processCard_dup (cfg : Config) (W : World) (cx : Ctx) (st : PipeState)
    (href titleT compT : String) (locT : Option String) (herr : st.err = false)
    (hdup : job_id_of href ∈ st.seen ∨ job_id_of href ∈ st.inRun) :
    processCard cfg W cx st ⟨some (some href), some titleT, some compT, locT⟩ = st := by
  simp [processCard, herr, hdup]

theorem processCard_noMatch (cfg : Config) (W : World) (cx : Ctx) (st : PipeState)
    (href titleT compT : String) (locT : Option String) (herr : st.err = false)
    (hnew : ¬(job_id_of href ∈ st.seen ∨ job_id_of href ∈ st.inRun))
    (hcls : classifies cfg cx (strLower (strTrim titleT))
      (extract_country (cardLocationText locT)) = false) :
    processCard cfg W cx st ⟨some (some href), some titleT, some compT, locT⟩ =
      { st with inRun := job_id_of href :: st.inRun } := by
  simp [processCard, herr, hnew, hcls]

theorem processCard_accept (cfg : Config) (W : World) (cx : Ctx) (st : PipeState)
    (href titleT compT : String) (locT : Option String) (herr : st.err = false)
    (hnew : ¬(job_id_of href ∈ st.seen ∨ job_id_of href ∈ st.inRun))
    (hcls : classifies cfg cx (strLower (strTrim titleT))
      (extract_country (cardLocationText locT)) = true) :
    processCard cfg W cx st ⟨some (some href), some titleT, some compT, locT⟩ =
      { seen := job_id_of href :: st.seen,
        inRun := job_id_of href :: st.inRun,
        events := st.events ++
          (notifyEvents W cx st.events.length
              ("🔔 New " ++ cx.category ++ " Job")
              (strTrim titleT ++ " at " ++ strTrim compT ++ " — " ++
                cardLocationText locT ++ "\n" ++ strTakeUntil '?' (strTrim href)) ++
            [Event.rowInserted cx.sheet (job_id_of href) (strTakeUntil '?' (strTrim href))
              (strTrim titleT) (strTrim compT) (cardLocationText locT) cx.category
              (extract_country (cardLocationText locT))
              (W.insertOk (st.events ++ notifyEvents W cx st.events.length "" "").length),
             Event.ledgerAdded (job_id_of href)]),
        err := false } := by
  by_cases hr : cx.recipients = [] <;>
    simp [processCard, send_email_step, insert_job_step, notifyEvents, herr, hnew, hcls, hr,
      List.append_assoc]

/-! ## Substring containment agrees with `List.IsInfix` -/

theorem isPrefOf_iff : ∀ (n h : List Char), isPrefOf n h = true ↔ n <+: h
  | [], h => by simp [isPrefOf]
  | a :: as, [] => by
    simp only [isPrefOf, Bool.false_eq_true, false_iff]
    exact fun hpre => by simpa using hpre.length_le
  | a :: as, b :: bs => by
    simp [isPrefOf, isPrefOf_iff as bs, List.cons_prefix_cons, Bool.and_eq_true,
      beq_iff_eq]

theorem containsSub_iff : ∀ (h n : List Char), containsSub h n = true ↔ n <:+: h
  | [], n => by simp [containsSub, List.isEmpty_iff, List.infix_nil]
  | c :: tl, n => by
    simp [containsSub, Bool.or_eq_true, isPrefOf_iff, containsSub_iff tl n,
      List.infix_cons_iff]

/-! ## Claim theorems -/

/-- C6: `rotating_slice` on an empty list returns the empty list; when
the requested size is at least the list length it returns the list
unchanged; otherwise it returns exactly `s` elements — the contiguous
circular window `(L[start:] + L[:start])[:s]` with
`start = seed mod len L`, whose `j`-th element is
`L[(start + j) mod len L]`. -/
theorem claim_C6_rotating_slice (L : List String) (s : Nat) (seed : Int) :
    (L = [] → rotating_slice L s seed = [])
  ∧ (L.length ≤ s → rotating_slice L s seed = L)
  ∧ (L ≠ [] → s < L.length →
      (rotating_slice L s seed).length = s ∧
      rotating_slice L s seed =
        ((L.drop ((seed % (L.length : Int)).toNat)) ++
          (L.take ((seed % (L.length : Int)).toNat))).take s ∧
      ∀ j : Nat, j < s →
        (rotating_slice L s seed)[j]? =
          L[(((seed % (L.length : Int)).toNat + j) % L.length)]?) := by
  refine ⟨?_, ?_, ?_⟩
  · rintro rfl; simp [rotating_slice]
  · intro h
    rw [rotating_slice]
    by_cases he : L.isEmpty
    · rw [if_pos he]; exact (List.isEmpty_iff.mp he).symm
    · rw [if_neg he, if_pos h]
  · intro hne hs
    have hlenpos : 0 < L.length := List.length_pos.mpr hne
    have hcast : ((L.length : Int)) ≠ 0 := by exact_mod_cast Nat.pos_iff_ne_zero.mp hlenpos
    have hnonneg : 0 ≤ seed % (L.length : Int) := Int.emod_nonneg seed hcast
    have hublt : seed % (L.length : Int) < (L.length : Int) :=
      Int.emod_lt_of_pos seed (by exact_mod_cast hlenpos)
    set k := (seed % (L.length : Int)).toNat with hk
    have hklt : k < L.length := by omega
    have hrot : rotating_slice L s seed = ((L.drop k ++ L.take k).take s) := by
      rw [rotating_slice, if_neg (by simp [List.isEmpty_iff, hne]), if_neg (by omega)]
    have hlen : (rotating_slice L s seed).length = s := by
      rw [hrot]
      simp only [List.length_take, List.length_append, List.length_drop]
      omega
    refine ⟨hlen, hrot, ?_⟩
    intro j hj
    rw [hrot, List.getElem?_take_of_lt hj]
    by_cases hcase : j < L.length - k
    · rw [List.getElem?_append_left (by simp only [List.length_drop]; omega),
        List.getElem?_drop, Nat.mod_eq_of_lt (by omega)]
    · rw [List.getElem?_append_right (by simp only [List.length_drop]; omega)]
      have hmod : (k + j) % L.length = k + j - L.length := by
        rw [Nat.mod_eq_sub_mod (by omega), Nat.mod_eq_of_lt (by omega)]
      rw [List.getElem?_take_of_lt (by simp only [List.length_drop]; omega), hmod]
      congr 1
      simp only [List.length_drop]
      omega

/-- C6 witness: a concrete rotation (`L` of length 4, size 2, seed 5,
so `start = 1`) instantiating the circular-window clause. -/
theorem claim_C6_witness :
    rotating_slice ["NY", "SF", "Austin", "Dallas"] 2 5 = ["SF", "Austin"]
  ∧ (rotating_slice ["NY", "SF", "Austin", "Dallas"] 2 5).length = 2 := by
  obtain ⟨hlen, hform, -⟩ :=
    (claim_C6_rotating_slice ["NY", "SF", "Austin", "Dallas"] 2 5).2.2 (by decide)
      (by decide)
  refine ⟨?_, hlen⟩
  rw [hform]; decide

/-- C9: keyword matching (as invoked by the pipeline on the lowercased
title) is case-insensitive substring containment — it holds iff some
keyword, lower-cased, occurs as a contiguous substring of the
lower-cased title — and the spec's two examples evaluate as stated. -/
theorem claim_C9_matches_any :
    (∀ (title : String) (keywords : List String),
      matches_any (strLower title) keywords = true ↔
        ∃ k ∈ keywords, (strLower k).data <:+: (strLower title).data)
  ∧ matches_any (strLower "Senior SRE II") ["sre"] = true
  ∧ matches_any (strLower "Oracle Developer") ["Data Analyst"] = false := by
  refine ⟨?_, by decide, by decide⟩
  intro title keywords
  simp [matches_any, List.any_eq_true, containsSub_iff]

/-- C2 (amended): `extract_job_id` is deterministic, and when neither a
regex pattern nor a recognised query parameter yields a structured id,
the result is `"u_"` followed by the first 16 hex digits of the SHA-256
digest of the **raw** URL — query string included, not the canonical
(query-stripped) URL the original claim describes. -/
theorem claim_C2_extract_job_id (url : String) :
    extract_job_id url = extract_job_id url
  ∧ (url ≠ "" → regex_id url = none → query_param_id url = none →
      extract_job_id url = "u_" ++ strTake 16 (sha256hex url)) := by
  refine ⟨rfl, fun h0 h1 h2 => ?_⟩
  simp [extract_job_id, h0, h1, h2]

/-- C2 witness: a URL with no structured identifier takes the
hash-of-raw-URL fallback. -/
theorem claim_C2_witness :
    extract_job_id "https://www.linkedin.com/jobs/search?refId=1" =
      "u_" ++ strTake 16 (sha256hex "https://www.linkedin.com/jobs/search?refId=1") :=
  (claim_C2_extract_job_id "https://www.linkedin.com/jobs/search?refId=1").2
    (by decide) (by decide) (by decide)

/-- C2 counterexample: two raw URLs that differ only in their query
string share the same canonical (query-stripped) URL, neither has a
structured identifier, yet their hash-fallback ids differ — refuting
the claim that the fallback digests the canonicalized URL. -/
theorem claim_C2_counterexample :
    strTakeUntil '?' "https://www.linkedin.com/jobs/search?refId=1" =
      strTakeUntil '?' "https://www.linkedin.com/jobs/search?refId=2"
  ∧ regex_id "https://www.linkedin.com/jobs/search?refId=1" = none
  ∧ query_param_id "https://www.linkedin.com/jobs/search?refId=1" = none
  ∧ regex_id "https://www.linkedin.com/jobs/search?refId=2" = none
  ∧ query_param_id "https://www.linkedin.com/jobs/search?refId=2" = none
  ∧ extract_job_id "https://www.linkedin.com/jobs/search?refId=1" ≠
      extract_job_id "https://www.linkedin.com/jobs/search?refId=2" := by
  exact ⟨by decide, by decide, by decide, by decide, by decide, by decide⟩

/-- C5: for a new card that passes classification (with a nonempty
recipient list), the pipeline appends, in order, (a) the e-mail
notification event, (b) the sheet-row persistence event, (c) the ledger
addition event, and adds the id to the shared ledger.  The equation
holds for every `World` — in particular for any value of `W.emailOk`,
whose `false` outcome is recorded in the notification event and affects
nothing else — so a notification failure never prevents persistence and
ledger addition from completing. -/
theorem claim_C5_accept_order (cfg : Config) (W : World) (cx : Ctx) (st : PipeState)
    (href titleT compT : String) (locT : Option String)
    (herr : st.err = false)
    (h1 : job_id_of href ∉ st.seen) (h2 : job_id_of href ∉ st.inRun)
    (hcls : classifies cfg cx (strLower (strTrim titleT))
      (extract_country (cardLocationText locT)) = true)
    (hr : cx.recipients ≠ []) :
    (processCard cfg W cx st ⟨some (some href), some titleT, some compT, locT⟩).events
      = st.events ++
        [Event.emailSent ("🔔 New " ++ cx.category ++ " Job")
            (strTrim titleT ++ " at " ++ strTrim compT ++ " — " ++ cardLocationText locT ++
              "\n" ++ strTakeUntil '?' (strTrim href))
            cx.recipients (W.emailOk st.events.length),
         Event.rowInserted cx.sheet (job_id_of href) (strTakeUntil '?' (strTrim href))
            (strTrim titleT) (strTrim compT) (cardLocationText locT) cx.category
            (extract_country (cardLocationText locT)) (W.insertOk (st.events.length + 1)),
         Event.ledgerAdded (job_id_of href)]
  ∧ (processCard cfg W cx st ⟨some (some href), some titleT, some compT, locT⟩).seen
      = job_id_of href :: st.seen
  ∧ (processCard cfg W cx st ⟨some (some href), some titleT, some compT, locT⟩).err
      = false := by
  rw [processCard_accept cfg W cx st href titleT compT locT herr (by tauto) hcls]
  simp [notifyEvents, hr]

/-- C5 witness: a concrete new, classified card with nonempty
recipients, instantiating the ordered-trace clause. -/
theorem claim_C5_witness :
    (processCard cfg0 W0 cx0 st0
        ⟨some (some "https://www.linkedin.com/jobs/view/77/"), some "SRE Lead",
          some "Acme", none⟩).seen
      = job_id_of "https://www.linkedin.com/jobs/view/77/" :: st0.seen :=
  (claim_C5_accept_order cfg0 W0 cx0 st0 "https://www.linkedin.com/jobs/view/77/"
    "SRE Lead" "Acme" none (by decide) (by decide) (by decide) (by decide)
    (by decide)).2.1

/-- C8: a card lacking a link, title or company element is silently
discarded — the pipeline state (ledger, in-run set, trace, error flag)
is completely unchanged, so no error propagates — and a card whose
location element is missing is processed with the sentinel location
`"Unknown"`, which is what its persisted row and derived country use. -/
theorem claim_C8_card_handling :
    (∀ (cfg : Config) (W : World) (cx : Ctx) (st : PipeState) (c : Card),
      (c.link = none ∨ c.title = none ∨ c.company = none) →
      processCard cfg W cx st c = st)
  ∧ cardLocationText none = "Unknown"
  ∧ (∀ (cfg : Config) (W : World) (cx : Ctx) (st : PipeState) (href titleT compT : String),
      st.err = false →
      job_id_of href ∉ st.seen → job_id_of href ∉ st.inRun →
      classifies cfg cx (strLower (strTrim titleT)) (extract_country "Unknown") = true →
      (processCard cfg W cx st ⟨some (some href), some titleT, some compT, none⟩).events
        = st.events ++
          (notifyEvents W cx st.events.length ("🔔 New " ++ cx.category ++ " Job")
              (strTrim titleT ++ " at " ++ strTrim compT ++ " — " ++ "Unknown" ++ "\n" ++
                strTakeUntil '?' (strTrim href)) ++
            [Event.rowInserted cx.sheet (job_id_of href) (strTakeUntil '?' (strTrim href))
                (strTrim titleT) (strTrim compT) "Unknown" cx.category
                (extract_country "Unknown")
                (W.insertOk (st.events ++ notifyEvents W cx st.events.length "" "").length),
             Event.ledgerAdded (job_id_of href)])) := by
  refine ⟨fun cfg W cx st c h => processCard_discard cfg W cx st c h, rfl, ?_⟩
  intro cfg W cx st href titleT compT herr h1 h2 hcls
  rw [processCard_accept cfg W cx st href titleT compT none herr (by tauto)
    (by simpa [cardLocationText] using hcls)]
  simp [cardLocationText]

/-- C8 witness: a concrete card with a missing title element is
discarded unchanged, and the missing-location sentinel is `"Unknown"`. -/
theorem claim_C8_witness :
    processCard cfg0 W0 cx0 st0 ⟨some (some "x"), none, some "Acme", none⟩ = st0
  ∧ cardLocationText none = "Unknown" :=
  ⟨claim_C8_card_handling.1 cfg0 W0 cx0 st0 ⟨some (some "x"), none, some "Acme", none⟩
      (Or.inr (Or.inl rfl)),
    claim_C8_card_handling.2.1⟩

/-! ## Counting lemmas -/

theorem countEv_append (p : Event → Bool) (a b : List Event) :
    countEv p (a ++ b) = countEv p a + countEv p b := by
  simp [countEv, List.filter_append]

theorem acceptCount_nil (id : String) : acceptCount id [] = 0 := rfl

theorem acceptCount_append (id : String) (a b : List Event) :
    acceptCount id (a ++ b) = acceptCount id a + acceptCount id b :=
  countEv_append _ a b

theorem fetchedQueries_append (a b : List Event) :
    fetchedQueries (a ++ b) = fetchedQueries a ++ fetchedQueries b := by
  simp [fetchedQueries]

/-! ## Master case analysis of `processCard`

Every card either leaves the state unchanged, raises the `KeyError`
(only possible when its link element lacks an `href`), is recorded in
the in-run set only, or is accepted: one new ledger id with exactly one
acceptance event, no fetch events, at most one notification and exactly
one row insertion. -/

theorem processCard_main (cfg : Config) (W : World) (cx : Ctx) (st : PipeState) (c : Card) :
    processCard cfg W cx st c = st
  ∨ (cardHrefOk c = false ∧ processCard cfg W cx st c = { st with err := true })
  ∨ (∃ jid, processCard cfg W cx st c = { st with inRun := jid :: st.inRun })
  ∨ (∃ jid d, jid ∉ st.seen ∧ st.err = false ∧
      processCard cfg W cx st c =
        { seen := jid :: st.seen, inRun := jid :: st.inRun,
          events := st.events ++ d, err := false } ∧
      (∀ id, acceptCount id d = if jid = id then 1 else 0) ∧
      fetchedQueries d = [] ∧
      countEv isNotifyEv d ≤ 1 ∧ countEv isRowEv d = 1) := by
  by_cases herr : st.err = true
  · exact Or.inl (processCard_absorb cfg W cx st c herr)
  · have herr' : st.err = false := by simpa using herr
    obtain ⟨l, t, co, lo⟩ := c
    cases l with
    | none => exact Or.inl (processCard_discard cfg W cx st _ (Or.inl rfl))
    | some le =>
      cases t with
      | none => exact Or.inl (processCard_discard cfg W cx st _ (Or.inr (Or.inl rfl)))
      | some tt =>
        cases co with
        | none => exact Or.inl (processCard_discard cfg W cx st _ (Or.inr (Or.inr rfl)))
        | some cc =>
          cases le with
          | none =>
            exact Or.inr (Or.inl ⟨rfl, processCard_keyError cfg W cx st tt cc lo herr'⟩)
          | some href =>
            by_cases hdup : job_id_of href ∈ st.seen ∨ job_id_of href ∈ st.inRun
            · exact Or.inl (processCard_dup cfg W cx st href tt cc lo herr' hdup)
            · by_cases hcls : classifies cfg cx (strLower (strTrim tt))
                (extract_country (cardLocationText lo)) = true
              · refine Or.inr (Or.inr (Or.inr ⟨job_id_of href, _,
                  fun hmem => hdup (Or.inl hmem), herr',
                  processCard_accept cfg W cx st href tt cc lo herr' hdup hcls, ?_, ?_, ?_, ?_⟩))
                · intro id
                  by_cases hr : cx.recipients = [] <;>
                    by_cases hjid : job_id_of href = id <;>
                      simp [notifyEvents, acceptCount, countEv, isAcceptEv, hr, hjid]
                · by_cases hr : cx.recipients = [] <;> simp [notifyEvents, fetchedQueries, hr]
                · by_cases hr : cx.recipients = [] <;>
                    simp [notifyEvents, countEv, isNotifyEv, hr]
                · by_cases hr : cx.recipients = [] <;>
                    simp [notifyEvents, countEv, isRowEv, hr]
              · refine Or.inr (Or.inr (Or.inl ⟨job_id_of href, ?_⟩))
                exact processCard_noMatch cfg W cx st href tt cc lo herr' hdup
                  (by simpa using hcls)

/-! ## The `Steps` invariant, compositionally -/

theorem Steps.idFun : Steps (fun st => st) := by
  constructor
  · intro st; exact List.Subset.refl _
  · intro st
    exact ⟨[], by simp, fun id _ => acceptCount_nil id, fun id => by simp [acceptCount_nil],
      fun id h => by simp [acceptCount_nil] at h⟩

theorem Steps.of_eq {f g : PipeState → PipeState} (h : ∀ st, f st = g st) (hf : Steps f) :
    Steps g := by
  constructor
  · intro st; rw [← h st]; exact hf.mono st
  · intro st; rw [← h st]; exact hf.delta st

theorem Steps.comp {f g : PipeState → PipeState} (hf : Steps f) (hg : Steps g) :
    Steps (fun st => g (f st)) := by
  constructor
  · intro st
    exact List.Subset.trans (hf.mono st) (hg.mono (f st))
  · intro st
    obtain ⟨d1, he1, hs1, hl1, hi1⟩ := hf.delta st
    obtain ⟨d2, he2, hs2, hl2, hi2⟩ := hg.delta (f st)
    refine ⟨d1 ++ d2, by rw [he2, he1, List.append_assoc], ?_, ?_, ?_⟩
    · intro id hid
      rw [acceptCount_append, hs1 id hid, hs2 id (hf.mono st hid)]
    · intro id
      rw [acceptCount_append]
      rcases Nat.eq_zero_or_pos (acceptCount id d1) with h1 | h1
      · rw [h1]; simpa using hl2 id
      · have h1' : acceptCount id d1 = 1 := Nat.le_antisymm (hl1 id) h1
        rw [h1', hs2 id (hi1 id h1)]
    · intro id hid
      rw [acceptCount_append] at hid
      rcases Nat.eq_zero_or_pos (acceptCount id d2) with h2 | h2
      · exact hg.mono (f st) (hi1 id (by omega))
      · exact hi2 id h2

theorem Steps.ite_err {F : PipeState → PipeState} (hF : Steps F) :
    Steps (fun st => if st.err then st else F st) := by
  constructor
  · intro st
    by_cases h : st.err
    · simp [h]
    · simpa [h] using hF.mono st
  · intro st
    by_cases h : st.err
    · simp only [h, if_true]
      exact ⟨[], by simp, fun id _ => acceptCount_nil id, fun id => by simp [acceptCount_nil],
        fun id hh => by simp [acceptCount_nil] at hh⟩
    · simpa [h] using hF.delta st

theorem steps_foldl {α : Type} (step : α → PipeState → PipeState)
    (h : ∀ x, Steps (fun st => step x st)) :
    ∀ xs : List α, Steps (fun st => xs.foldl (fun st x => step x st) st)
  | [] => Steps.of_eq (fun st => rfl) Steps.idFun
  | x :: xs =>
    Steps.of_eq (fun st => by simp) ((h x).comp (steps_foldl step h xs))

theorem steps_processCard (cfg : Config) (W : World) (cx : Ctx) (c : Card) :
    Steps (fun st => processCard cfg W cx st c) := by
  constructor
  · intro st
    rcases processCard_main cfg W cx st c with h | ⟨_, h⟩ | ⟨jid, h⟩ |
      ⟨jid, d, _, _, h, _, _, _, _⟩ <;> rw [h]
    · exact List.Subset.refl _
    · exact List.Subset.refl _
    · exact List.Subset.refl _
    · exact List.subset_cons_self _ _
  · intro st
    rcases processCard_main cfg W cx st c with h | ⟨_, h⟩ | ⟨jid, h⟩ |
      ⟨jid, d, hnot, _, h, hcount, _, _, _⟩ <;> rw [h]
    · exact ⟨[], by simp, fun id _ => acceptCount_nil id, fun id => by simp [acceptCount_nil],
        fun id hh => by simp [acceptCount_nil] at hh⟩
    · exact ⟨[], by simp, fun id _ => acceptCount_nil id, fun id => by simp [acceptCount_nil],
        fun id hh => by simp [acceptCount_nil] at hh⟩
    · exact ⟨[], by simp, fun id _ => acceptCount_nil id, fun id => by simp [acceptCount_nil],
        fun id hh => by simp [acceptCount_nil] at hh⟩
    · refine ⟨d, by simp, ?_, ?_, ?_⟩
      · intro id hid
        rw [hcount id, if_neg]
        rintro rfl
        exact hnot hid
      · intro id
        rw [hcount id]
        split <;> omega
      · intro id h1
        rw [hcount id] at h1
        by_cases hjid : jid = id
        · subst hjid; simp
        · rw [if_neg hjid] at h1; omega

/-- One-step unfolding of the page loop. -/
theorem pagesLoop_succ (cfg : Config) (W : World) (cx : Ctx) (q : Query) (r pageIdx : Nat)
    (st : PipeState) :
    pagesLoop cfg W cx q (r + 1) pageIdx st =
      if st.err then st else
      match W.fetch { q with start := pageIdx * 25 } with
      | FetchResult.fail =>
        { st with events := st.events ++ [Event.fetched { q with start := pageIdx * 25 }] }
      | FetchResult.page cards =>
        if cards.isEmpty then
          { st with events := st.events ++ [Event.fetched { q with start := pageIdx * 25 }] }
        else pagesLoop cfg W cx q r (pageIdx + 1)
          (cards.foldl (fun s c => processCard cfg W cx s c)
            { st with events := st.events ++
                [Event.fetched { q with start := pageIdx * 25 }] }) := rfl

theorem pagesLoop_succ_err (cfg : Config) (W : World) (cx : Ctx) (q : Query)
    (r pageIdx : Nat) (st : PipeState) (h : st.err = true) :
    pagesLoop cfg W cx q (r + 1) pageIdx st = st := by
  rw [pagesLoop_succ, if_pos h]

theorem pagesLoop_succ_fail (cfg : Config) (W : World) (cx : Ctx) (q : Query)
    (r pageIdx : Nat) (st : PipeState)
    (hfetch : W.fetch { q with start := pageIdx * 25 } = FetchResult.fail)
    (h : ¬ (st.err = true)) :
    pagesLoop cfg W cx q (r + 1) pageIdx st =
      { st with events := st.events ++
          [Event.fetched { q with start := pageIdx * 25 }] } := by
  rw [pagesLoop_succ, if_neg h, hfetch]

theorem pagesLoop_succ_empty (cfg : Config) (W : World) (cx : Ctx) (q : Query)
    (r pageIdx : Nat) (st : PipeState) (cards : List Card)
    (hfetch : W.fetch { q with start := pageIdx * 25 } = FetchResult.page cards)
    (hemp : cards.isEmpty = true) (h : ¬ (st.err = true)) :
    pagesLoop cfg W cx q (r + 1) pageIdx st =
      { st with events := st.events ++
          [Event.fetched { q with start := pageIdx * 25 }] } := by
  rw [pagesLoop_succ, if_neg h, hfetch]
  simp only [hemp, if_true]

theorem pagesLoop_succ_page (cfg : Config) (W : World) (cx : Ctx) (q : Query)
    (r pageIdx : Nat) (st : PipeState) (cards : List Card)
    (hfetch : W.fetch { q with start := pageIdx * 25 } = FetchResult.page cards)
    (hemp : ¬ (cards.isEmpty = true)) (h : ¬ (st.err = true)) :
    pagesLoop cfg W cx q (r + 1) pageIdx st =
      pagesLoop cfg W cx q r (pageIdx + 1)
        (cards.foldl (fun s c => processCard cfg W cx s c)
          { st with events := st.events ++
              [Event.fetched { q with start := pageIdx * 25 }] }) := by
  rw [pagesLoop_succ, if_neg h, hfetch]
  simp only [Bool.not_eq_true] at hemp
  simp only [hemp, Bool.false_eq_true, if_false]

theorem steps_append_fetched (q' : Query) :
    Steps (fun st => { st with events := st.events ++ [Event.fetched q'] }) := by
  constructor
  · intro st; exact List.Subset.refl _
  · intro st
    refine ⟨[Event.fetched q'], by simp, ?_, ?_, ?_⟩
    · intro id _; simp [acceptCount, countEv, isAcceptEv]
    · intro id; simp [acceptCount, countEv, isAcceptEv]
    · intro id h; simp [acceptCount, countEv, isAcceptEv] at h

theorem steps_pagesLoop (cfg : Config) (W : World) (cx : Ctx) (q : Query) :
    ∀ (n pageIdx : Nat), Steps (fun st => pagesLoop cfg W cx q n pageIdx st)
  | 0, _ => Steps.of_eq (fun st => rfl) Steps.idFun
  | n + 1, pageIdx => by
    have hfold : ∀ cards : List Card,
        Steps (fun st => cards.foldl (fun s c => processCard cfg W cx s c) st) :=
      fun cards => steps_foldl _ (fun c => steps_processCard cfg W cx c) cards
    have hbase : Steps (fun st => if st.err then st else
        { st with events := st.events ++
            [Event.fetched { q with start := pageIdx * 25 }] }) :=
      Steps.ite_err (steps_append_fetched { q with start := pageIdx * 25 })
    rcases hfetch : W.fetch { q with start := pageIdx * 25 } with _ | cards
    · refine Steps.of_eq (fun st => ?_) hbase
      rw [pagesLoop_succ, hfetch]
    · by_cases hemp : cards.isEmpty
      · refine Steps.of_eq (fun st => ?_) hbase
        rw [pagesLoop_succ, hfetch]
        simp only [hemp, if_true]
      · have hrec : Steps (fun st => if st.err then st else
            pagesLoop cfg W cx q n (pageIdx + 1)
              (cards.foldl (fun s c => processCard cfg W cx s c)
                { st with events := st.events ++
                    [Event.fetched { q with start := pageIdx * 25 }] })) :=
          Steps.ite_err
            (((steps_append_fetched { q with start := pageIdx * 25 }).comp
                (hfold cards)).comp
              (steps_pagesLoop cfg W cx q n (pageIdx + 1)))
        refine Steps.of_eq (fun st => ?_) hrec
        rw [pagesLoop_succ, hfetch]
        simp only [hemp, if_false, Bool.false_eq_true]

theorem steps_resetInRun : Steps (fun st => { st with inRun := ([] : List String) }) := by
  constructor
  · intro st; exact List.Subset.refl _
  · intro st
    exact ⟨[], by simp, fun id _ => acceptCount_nil id, fun id => by simp [acceptCount_nil],
      fun id hh => by simp [acceptCount_nil] at hh⟩

theorem steps_process_jobs (cfg : Config) (W : World) (cx : Ctx) (q0 : Query) :
    Steps (fun st => process_jobs cfg W cx q0 st) := by
  have h : Steps (fun st => if st.err then st else
      pagesLoop cfg W cx q0 cfg.maxPages 0 { st with inRun := ([] : List String) }) :=
    Steps.ite_err (steps_resetInRun.comp (steps_pagesLoop cfg W cx q0 cfg.maxPages 0))
  exact Steps.of_eq (fun st => rfl) h

theorem steps_run_category (cfg : Config) (W : World) (c : Category) :
    Steps (fun st => run_category cfg W c st) := by
  have h : Steps (fun st =>
      (rotating_slice cfg.locations cfg.perRunLocations cfg.seed).foldl
        (fun st loc =>
          process_jobs cfg W
            { keywords := cleaned_keywords c.keywords, category := c.name,
              expected_country := "United States",
              recipients := parse_recipients c.recipients_env, sheet := c.sheet }
            { keywords := joinSep " OR " (cleaned_keywords c.keywords), location := loc,
              f_TPR := cfg.timeWindow, sortBy := "DD", start := 0 }
            st)
        st) :=
    steps_foldl _ (fun loc => steps_process_jobs cfg W _ _)
      (rotating_slice cfg.locations cfg.perRunLocations cfg.seed)
  exact Steps.of_eq (fun st => rfl) h

theorem steps_runCategories (cfg : Config) (W : World) (cats : List Category) :
    Steps (fun st => runCategories cfg W cats st) := by
  have h : Steps (fun st => cats.foldl (fun st c => run_category cfg W c st) st) :=
    steps_foldl _ (fun c => steps_run_category cfg W c) cats
  exact Steps.of_eq (fun st => rfl) h

/-! ## C1 -/

/-- C1: over a whole run sharing one dedupe ledger across all
categories, any given job id is accepted (notified and persisted) at
most once — including through `check_new_jobs` — an id already persisted
in the seeded ledger is never accepted, and once the first category's
run accepts an id, processing the remaining categories adds no further
acceptance of it. -/
theorem claim_C1_dedupe_at_most_once :
    (∀ (cfg : Config) (W : World) (cats : List Category) (seeded : List String) (id : String),
      acceptCount id (runCategories cfg W cats (initState seeded)).events ≤ 1)
  ∧ (∀ (cfg : Config) (W : World) (env : Env) (seeded : List String) (id : String),
      acceptCount id (check_new_jobs cfg W env seeded).events ≤ 1)
  ∧ (∀ (cfg : Config) (W : World) (cats : List Category) (seeded : List String) (id : String),
      id ∈ seeded →
      acceptCount id (runCategories cfg W cats (initState seeded)).events = 0)
  ∧ (∀ (cfg : Config) (W : World) (catA : Category) (rest : List Category)
      (seeded : List String) (id : String),
      1 ≤ acceptCount id (run_category cfg W catA (initState seeded)).events →
      acceptCount id (runCategories cfg W (catA :: rest) (initState seeded)).events
        = acceptCount id (run_category cfg W catA (initState seeded)).events) := by
  have key : ∀ (cfg : Config) (W : World) (cats : List Category) (seeded : List String)
      (id : String),
      acceptCount id (runCategories cfg W cats (initState seeded)).events ≤ 1 := by
    intro cfg W cats seeded id
    obtain ⟨d, he, _, hl, _⟩ := (steps_runCategories cfg W cats).delta (initState seeded)
    have : (initState seeded).events = [] := rfl
    rw [he, this, List.nil_append]
    exact hl id
  refine ⟨key, fun cfg W env seeded id => key cfg W _ seeded id, ?_, ?_⟩
  · intro cfg W cats seeded id hid
    obtain ⟨d, he, hs, _, _⟩ := (steps_runCategories cfg W cats).delta (initState seeded)
    have hinit : (initState seeded).events = [] := rfl
    rw [he, hinit, List.nil_append]
    exact hs id hid
  · intro cfg W catA rest seeded id h1
    have hsplit : runCategories cfg W (catA :: rest) (initState seeded)
        = runCategories cfg W rest (run_category cfg W catA (initState seeded)) := by
      rw [runCategories, runCategories, List.foldl_cons]
    obtain ⟨d1, he1, _, hl1, hi1⟩ := (steps_run_category cfg W catA).delta (initState seeded)
    have hinit : (initState seeded).events = [] := rfl
    have hd1 : acceptCount id (run_category cfg W catA (initState seeded)).events
        = acceptCount id d1 := by rw [he1, hinit, List.nil_append]
    have hmem : id ∈ (run_category cfg W catA (initState seeded)).seen := by
      apply hi1; rw [← hd1]; exact h1
    obtain ⟨d2, he2, hs2, _, _⟩ :=
      (steps_runCategories cfg W rest).delta (run_category cfg W catA (initState seeded))
    rw [hsplit, he2, acceptCount_append, hs2 id hmem]
    omega

/-- C1 witness: two categories whose keyword sets both match the same
posting; it is accepted exactly once, under the first category. -/
theorem claim_C1_witness :
    acceptCount "123456789"
        (runCategories cfg1 W1 [catA1, catB1] (initState [])).events
      = acceptCount "123456789" (run_category cfg1 W1 catA1 (initState [])).events
  ∧ acceptCount "123456789" (run_category cfg1 W1 catA1 (initState [])).events = 1 :=
  ⟨claim_C1_dedupe_at_most_once.2.2.2 cfg1 W1 catA1 [catB1] [] "123456789" (by decide),
    by decide⟩

/-! ## C7 -/

theorem processCard_fetched (cfg : Config) (W : World) (cx : Ctx) (st : PipeState)
    (c : Card) :
    fetchedQueries (processCard cfg W cx st c).events = fetchedQueries st.events := by
  rcases processCard_main cfg W cx st c with h | ⟨_, h⟩ | ⟨jid, h⟩ |
    ⟨jid, d, _, _, h, _, hfq, _, _⟩ <;> rw [h]
  simp [fetchedQueries_append, hfq]

theorem processCards_fetched (cfg : Config) (W : World) (cx : Ctx) :
    ∀ (cards : List Card) (st : PipeState),
      fetchedQueries ((cards.foldl (fun s c => processCard cfg W cx s c) st)).events
        = fetchedQueries st.events
  | [], st => rfl
  | c :: cards, st => by
    rw [List.foldl_cons, processCards_fetched cfg W cx cards (processCard cfg W cx st c),
      processCard_fetched]

theorem pagesLoop_fetched (cfg : Config) (W : World) (cx : Ctx) (q : Query) :
    ∀ (n i : Nat) (st : PipeState),
      ∃ k, k ≤ n ∧
        fetchedQueries (pagesLoop cfg W cx q n i st).events
          = fetchedQueries st.events ++
            (List.range' i k).map (fun j => { q with start := j * 25 }) := by
  intro n
  induction n with
  | zero =>
    intro i st
    exact ⟨0, Nat.le_refl 0, by show fetchedQueries st.events = _; simp⟩
  | succ n ih =>
    intro i st
    by_cases herr : st.err
    · refine ⟨0, Nat.zero_le _, ?_⟩
      rw [pagesLoop_succ, if_pos herr]
      simp
    · rcases hfetch : W.fetch { q with start := i * 25 } with _ | cards
      · refine ⟨1, by omega, ?_⟩
        rw [pagesLoop_succ, if_neg herr, hfetch]
        simp [fetchedQueries_append, fetchedQueries]
      · by_cases hemp : cards.isEmpty
        · refine ⟨1, by omega, ?_⟩
          rw [pagesLoop_succ, if_neg herr, hfetch]
          simp [hemp, fetchedQueries_append, fetchedQueries]
        · obtain ⟨k, hk, hfq⟩ := ih (i + 1)
            (cards.foldl (fun s c => processCard cfg W cx s c)
              { st with events := st.events ++ [Event.fetched { q with start := i * 25 }] })
          refine ⟨k + 1, by omega, ?_⟩
          rw [pagesLoop_succ, if_neg herr, hfetch]
          simp only [hemp, if_false, Bool.false_eq_true]
          rw [hfq, processCards_fetched]
          simp [fetchedQueries_append, fetchedQueries, List.range'_succ,
            List.append_assoc]

/-- C7: page fetching starts at page index 0 with offset
`pageIndex * 25` (fixed page size 25): the fetched queries of any
`process_jobs` call are exactly `q0` with starts `0, 25, 50, …` for some
number `k ≤ maxPages` of pages (fetch failures, empty bodies and
card-less pages only stop this query's pagination early); and in the
concrete scenario with ceiling 2 where page 0 returns 25 cards and
page 1 returns 0 cards, exactly 2 fetches are performed, with offsets
0 and 25. -/
theorem claim_C7_pagination :
    (∀ (cfg : Config) (W : World) (cx : Ctx) (q0 : Query) (st : PipeState),
      ∃ k, k ≤ cfg.maxPages ∧
        fetchedQueries (process_jobs cfg W cx q0 st).events
          = fetchedQueries st.events ++
            (List.range k).map (fun j => { q0 with start := j * 25 }))
  ∧ fetchedQueries (process_jobs cfg2 W2 cx0 q2 (initState [])).events
      = [{ q2 with start := 0 }, { q2 with start := 25 }] := by
  refine ⟨?_, by decide⟩
  intro cfg W cx q0 st
  by_cases herr : st.err
  · refine ⟨0, Nat.zero_le _, ?_⟩
    rw [process_jobs, if_pos herr]
    simp
  · obtain ⟨k, hk, hfq⟩ :=
      pagesLoop_fetched cfg W cx q0 cfg.maxPages 0 { st with inRun := ([] : List String) }
    refine ⟨k, hk, ?_⟩
    rw [process_jobs, if_neg herr, hfq, List.range_eq_range']

/-! ## C10 -/

theorem containsSub_nil_needle : ∀ h : List Char, containsSub h [] = true := by
  intro h
  cases h <;> simp [containsSub, isPrefOf]

theorem isFetchEv_not_notify (e : Event) (h : isFetchEv e = true) : isNotifyEv e = false := by
  cases e <;> simp_all [isFetchEv, isNotifyEv]

theorem countNotify_allFetch (a d : List Event) (hall : ∀ e ∈ d, isFetchEv e = true) :
    countEv isNotifyEv (a ++ d) = countEv isNotifyEv a := by
  rw [countEv_append]
  have hzero : countEv isNotifyEv d = 0 := by
    simp only [countEv, List.length_eq_zero]
    rw [List.filter_eq_nil_iff]
    intro e he
    rw [isFetchEv_not_notify e (hall e he)]
    simp
  omega

theorem processCard_noKeywords (cfg : Config) (W : World) (cx : Ctx) (st : PipeState)
    (c : Card) (hk : cx.keywords = []) :
    (processCard cfg W cx st c).events = st.events := by
  by_cases herr : st.err = true
  · rw [processCard_absorb cfg W cx st c herr]
  · have herr' : st.err = false := by simpa using herr
    obtain ⟨l, t, co, lo⟩ := c
    cases l with
    | none => rw [processCard_discard cfg W cx st _ (Or.inl rfl)]
    | some le =>
      cases t with
      | none => rw [processCard_discard cfg W cx st _ (Or.inr (Or.inl rfl))]
      | some tt =>
        cases co with
        | none => rw [processCard_discard cfg W cx st _ (Or.inr (Or.inr rfl))]
        | some cc =>
          cases le with
          | none => rw [processCard_keyError cfg W cx st tt cc lo herr']
          | some href =>
            by_cases hdup : job_id_of href ∈ st.seen ∨ job_id_of href ∈ st.inRun
            · rw [processCard_dup cfg W cx st href tt cc lo herr' hdup]
            · rw [processCard_noMatch cfg W cx st href tt cc lo herr' hdup
                (by simp [classifies, matches_any, hk])]

theorem processCards_noKeywords (cfg : Config) (W : World) (cx : Ctx)
    (hk : cx.keywords = []) :
    ∀ (cards : List Card) (st : PipeState),
      ((cards.foldl (fun s c => processCard cfg W cx s c) st)).events = st.events
  | [], _ => rfl
  | c :: cards, st => by
    rw [List.foldl_cons, processCards_noKeywords cfg W cx hk cards,
      processCard_noKeywords cfg W cx st c hk]

theorem pagesLoop_noKeywords (cfg : Config) (W : World) (cx : Ctx) (q : Query)
    (hk : cx.keywords = []) :
    ∀ (n i : Nat) (st : PipeState),
      ∃ d, (pagesLoop cfg W cx q n i st).events = st.events ++ d ∧
        ∀ e ∈ d, isFetchEv e = true := by
  intro n
  induction n with
  | zero => intro i st; exact ⟨[], by simp [pagesLoop], by simp⟩
  | succ n ih =>
    intro i st
    by_cases herr : st.err
    · rw [pagesLoop_succ, if_pos herr]
      exact ⟨[], by simp, by simp⟩
    · rcases hfetch : W.fetch { q with start := i * 25 } with _ | cards
      · rw [pagesLoop_succ, if_neg herr, hfetch]
        exact ⟨[Event.fetched { q with start := i * 25 }], rfl, by simp [isFetchEv]⟩
      · by_cases hemp : cards.isEmpty
        · rw [pagesLoop_succ, if_neg herr, hfetch]
          simp only [hemp, if_true]
          exact ⟨[Event.fetched { q with start := i * 25 }], rfl, by simp [isFetchEv]⟩
        · obtain ⟨d, hd, hall⟩ := ih (i + 1)
            (cards.foldl (fun s c => processCard cfg W cx s c)
              { st with events := st.events ++ [Event.fetched { q with start := i * 25 }] })
          rw [pagesLoop_succ, if_neg herr, hfetch]
          simp only [hemp, if_false, Bool.false_eq_true]
          refine ⟨Event.fetched { q with start := i * 25 } :: d, ?_, ?_⟩
          · rw [hd, processCards_noKeywords cfg W cx hk]
            simp
          · intro e he
            rcases List.mem_cons.mp he with rfl | he'
            · simp [isFetchEv]
            · exact hall e he'

theorem process_jobs_noKeywords (cfg : Config) (W : World) (cx : Ctx) (q0 : Query)
    (st : PipeState) (hk : cx.keywords = []) :
    ∃ d, (process_jobs cfg W cx q0 st).events = st.events ++ d ∧
      ∀ e ∈ d, isFetchEv e = true := by
  by_cases herr : st.err
  · rw [process_jobs, if_pos herr]
    exact ⟨[], by simp, by simp⟩
  · rw [process_jobs, if_neg herr]
    simpa using pagesLoop_noKeywords cfg W cx q0 hk cfg.maxPages 0
      { st with inRun := ([] : List String) }

theorem foldLocs_noKeywords (cfg : Config) (W : World) (cx : Ctx) (q : String → Query)
    (hk : cx.keywords = []) :
    ∀ (locs : List String) (st : PipeState),
      ∃ d, ((locs.foldl (fun st loc => process_jobs cfg W cx (q loc) st) st)).events
          = st.events ++ d ∧ ∀ e ∈ d, isFetchEv e = true
  | [], st => ⟨[], by simp, by simp⟩
  | loc :: locs, st => by
    obtain ⟨d1, hd1, hall1⟩ := process_jobs_noKeywords cfg W cx (q loc) st hk
    obtain ⟨d2, hd2, hall2⟩ :=
      foldLocs_noKeywords cfg W cx q hk locs (process_jobs cfg W cx (q loc) st)
    refine ⟨d1 ++ d2, ?_, ?_⟩
    · rw [List.foldl_cons, hd2, hd1, List.append_assoc]
    · intro e he
      rcases List.mem_append.mp he with h | h
      · exact hall1 e h
      · exact hall2 e h

/-- C10: matching against an empty keyword sequence is always false; an
empty-string keyword would match every title, which is why
`run_category` strips empty and whitespace-only keywords; a category
whose keywords are all empty or whitespace therefore sends no
notification in any run. -/
theorem claim_C10_blank_keywords :
    (∀ t : String, matches_any t [] = false)
  ∧ (∀ t : String, matches_any t [""] = true)
  ∧ (∀ ks : List String, (∀ k ∈ ks, strTrim k = "") → cleaned_keywords ks = [])
  ∧ (∀ (cfg : Config) (W : World) (c : Category) (st : PipeState),
      (∀ k ∈ c.keywords, strTrim k = "") →
      countEv isNotifyEv (run_category cfg W c st).events
        = countEv isNotifyEv st.events) := by
  refine ⟨fun t => rfl, ?_, ?_, ?_⟩
  · intro t
    simp [matches_any, strLower, containsSub_nil_needle]
  · intro ks h
    simp only [cleaned_keywords, List.map_eq_nil_iff, List.filter_eq_nil_iff]
    intro k hk
    simp [h k hk]
  · intro cfg W c st h
    have hclean : cleaned_keywords c.keywords = [] := by
      simp only [cleaned_keywords, List.map_eq_nil_iff, List.filter_eq_nil_iff]
      intro k hk
      simp [h k hk]
    obtain ⟨d, hd, hall⟩ := foldLocs_noKeywords cfg W
      { keywords := cleaned_keywords c.keywords, category := c.name,
        expected_country := "United States",
        recipients := parse_recipients c.recipients_env, sheet := c.sheet }
      (fun loc =>
        { keywords := joinSep " OR " (cleaned_keywords c.keywords), location := loc,
          f_TPR := cfg.timeWindow, sortBy := "DD", start := 0 })
      hclean (rotating_slice cfg.locations cfg.perRunLocations cfg.seed) st
    have hrun : (run_category cfg W c st).events = st.events ++ d := hd
    rw [hrun, countNotify_allFetch st.events d hall]

/-- C10 witness: a category configured with only blank keywords is
cleaned to the empty keyword list and notifies nobody over a full run. -/
theorem claim_C10_witness :
    cleaned_keywords ["", "  "] = []
  ∧ countEv isNotifyEv (run_category cfg1 W1 catBlank (initState [])).events
      = countEv isNotifyEv (initState []).events :=
  ⟨claim_C10_blank_keywords.2.2.1 ["", "  "] (by decide),
    claim_C10_blank_keywords.2.2.2 cfg1 W1 catBlank (initState []) (by decide)⟩

/-! ## C3 -/

theorem processCard_err_eq (cfg : Config) (W : World) (cx : Ctx) (st : PipeState)
    (c : Card) (hok : cardHrefOk c = true) :
    (processCard cfg W cx st c).err = st.err := by
  rcases processCard_main cfg W cx st c with h | ⟨hbad, _⟩ | ⟨jid, h⟩ |
    ⟨jid, d, _, herr, h, _, _, _, _⟩
  · rw [h]
  · rw [hbad] at hok; cases hok
  · rw [h]
  · rw [h, herr]

theorem processCards_err_eq (cfg : Config) (W : World) (cx : Ctx) :
    ∀ (cards : List Card) (st : PipeState), (∀ c ∈ cards, cardHrefOk c = true) →
      ((cards.foldl (fun s c => processCard cfg W cx s c) st)).err = st.err
  | [], _, _ => rfl
  | c :: cards, st, hall => by
    rw [List.foldl_cons,
      processCards_err_eq cfg W cx cards (processCard cfg W cx st c)
        (fun c' hc' => hall c' (List.mem_cons_of_mem c hc')),
      processCard_err_eq cfg W cx st c (hall c (List.mem_cons_self c cards))]

theorem pagesLoop_err_eq (cfg : Config) (W : World) (cx : Ctx) (q : Query)
    (hW : ∀ q' cards, W.fetch q' = FetchResult.page cards →
      ∀ c ∈ cards, cardHrefOk c = true) :
    ∀ (n i : Nat) (st : PipeState), (pagesLoop cfg W cx q n i st).err = st.err := by
  intro n
  induction n with
  | zero => intro i st; rfl
  | succ n ih =>
    intro i st
    by_cases herr : st.err
    · rw [pagesLoop_succ, if_pos herr]
    · rcases hfetch : W.fetch { q with start := i * 25 } with _ | cards
      · rw [pagesLoop_succ, if_neg herr, hfetch]
      · by_cases hemp : cards.isEmpty
        · rw [pagesLoop_succ, if_neg herr, hfetch]
          simp only [hemp, if_true]
        · rw [pagesLoop_succ, if_neg herr, hfetch]
          simp only [hemp, if_false, Bool.false_eq_true]
          rw [ih (i + 1), processCards_err_eq cfg W cx cards _ (hW _ cards hfetch)]

theorem process_jobs_err_eq (cfg : Config) (W : World) (cx : Ctx) (q0 : Query)
    (st : PipeState)
    (hW : ∀ q' cards, W.fetch q' = FetchResult.page cards →
      ∀ c ∈ cards, cardHrefOk c = true) :
    (process_jobs cfg W cx q0 st).err = st.err := by
  by_cases herr : st.err
  · rw [process_jobs, if_pos herr]
  · rw [process_jobs, if_neg herr]
    exact pagesLoop_err_eq cfg W cx q0 hW cfg.maxPages 0 _

theorem foldLocs_err_eq (cfg : Config) (W : World) (cx : Ctx) (q : String → Query)
    (hW : ∀ q' cards, W.fetch q' = FetchResult.page cards →
      ∀ c ∈ cards, cardHrefOk c = true) :
    ∀ (locs : List String) (st : PipeState),
      ((locs.foldl (fun st loc => process_jobs cfg W cx (q loc) st) st)).err = st.err
  | [], _ => rfl
  | loc :: locs, st => by
    rw [List.foldl_cons, foldLocs_err_eq cfg W cx q hW locs,
      process_jobs_err_eq cfg W cx (q loc) st hW]

theorem run_category_err_eq (cfg : Config) (W : World) (c : Category) (st : PipeState)
    (hW : ∀ q' cards, W.fetch q' = FetchResult.page cards →
      ∀ c' ∈ cards, cardHrefOk c' = true) :
    (run_category cfg W c st).err = st.err :=
  foldLocs_err_eq cfg W
    { keywords := cleaned_keywords c.keywords, category := c.name,
      expected_country := "United States",
      recipients := parse_recipients c.recipients_env, sheet := c.sheet }
    (fun loc =>
      { keywords := joinSep " OR " (cleaned_keywords c.keywords), location := loc,
        f_TPR := cfg.timeWindow, sortBy := "DD", start := 0 })
    hW (rotating_slice cfg.locations cfg.perRunLocations cfg.seed) st

/-- C3 (amended): as long as every fetched card whose link element is
present also carries an `href` attribute, no failure aborts the run —
fetch failures, empty pages, cards with missing elements, e-mail
failures and sheet-write failures are all absorbed and the whole
orchestration completes with the error flag still clear.  (The
counterexample shows the claim as stated is false: a card whose link
element lacks an `href` raises an uncaught `KeyError` that aborts the
remaining locations and categories.) -/
theorem claim_C3_error_isolation (cfg : Config) (W : World) (cats : List Category)
    (seeded : List String)
    (hW : ∀ q' cards, W.fetch q' = FetchResult.page cards →
      ∀ c ∈ cards, cardHrefOk c = true) :
    (runCategories cfg W cats (initState seeded)).err = false := by
  have key : ∀ (cs : List Category) (st : PipeState),
      (runCategories cfg W cs st).err = st.err := by
    intro cs
    induction cs with
    | nil => intro st; rfl
    | cons c cs ih =>
      intro st
      have hsplit : runCategories cfg W (c :: cs) st
          = runCategories cfg W cs (run_category cfg W c st) := by
        rw [runCategories, runCategories, List.foldl_cons]
      rw [hsplit, ih, run_category_err_eq cfg W c st hW]
  rw [key cats (initState seeded)]
  rfl

/-- C3 witness: a run over a world that includes malformed (element-less)
cards and empty pages completes without error. -/
theorem claim_C3_witness :
    (runCategories cfg2 W2 [catA1] (initState [])).err = false :=
  claim_C3_error_isolation cfg2 W2 [catA1] [] (by
    intro q cards h
    by_cases h0 : q.start == 0
    · simp only [W2, h0, if_true] at h
      cases h
      decide
    · simp only [W2, h0, if_false, Bool.false_eq_true] at h
      cases h
      decide)

/-- C3 counterexample: an `href`-less card in the first category's
results raises an uncaught error that aborts the whole run — the second
category, which would have accepted the posting `123456789` had it been
processed (last conjunct), never gets to accept it. -/
theorem claim_C3_counterexample :
    (runCategories cfg1 W3 [catC1, catC2] (initState [])).err = true
  ∧ acceptCount "123456789"
      (runCategories cfg1 W3 [catC1, catC2] (initState [])).events = 0
  ∧ acceptCount "123456789" (runCategories cfg1 W3 [catC2] (initState [])).events = 1 :=
  ⟨by decide, by decide, by decide⟩

/-! ## C4: replaying the pipeline against the grown ledger

The second run is simulated against the first: if the ledger already
contains every id the first run will ever add (`h3`), the in-run set of
the first run is covered by the second run's ledger and in-run set
(`h2`), and the error flags agree (`h4`), then the second run skips or
rejects every card — its ledger and trace gain nothing but fetch
events. -/

theorem processCard_sim (cfg : Config) (W : World) (cx : Ctx) (c : Card)
    (stA stB : PipeState)
    (h2 : ∀ id ∈ stA.inRun, id ∈ stB.seen ∨ id ∈ stB.inRun)
    (h3c : (processCard cfg W cx stA c).seen ⊆ stB.seen)
    (h4 : stA.err = stB.err) :
    (processCard cfg W cx stB c).seen = stB.seen
  ∧ (processCard cfg W cx stB c).events = stB.events
  ∧ (processCard cfg W cx stA c).err = (processCard cfg W cx stB c).err
  ∧ (∀ id ∈ (processCard cfg W cx stA c).inRun,
      id ∈ (processCard cfg W cx stB c).seen ∨
        id ∈ (processCard cfg W cx stB c).inRun) := by
  by_cases herrA : stA.err = true
  · have herrB : stB.err = true := h4 ▸ herrA
    rw [processCard_absorb cfg W cx stA c herrA, processCard_absorb cfg W cx stB c herrB]
    exact ⟨rfl, rfl, h4, h2⟩
  · have herrA' : stA.err = false := by simpa using herrA
    have herrB' : stB.err = false := by rw [← h4]; exact herrA'
    obtain ⟨l, t, co, lo⟩ := c
    cases l with
    | none =>
      rw [processCard_discard cfg W cx stA _ (Or.inl rfl),
        processCard_discard cfg W cx stB _ (Or.inl rfl)]
      exact ⟨rfl, rfl, h4, h2⟩
    | some le =>
      cases t with
      | none =>
        rw [processCard_discard cfg W cx stA _ (Or.inr (Or.inl rfl)),
          processCard_discard cfg W cx stB _ (Or.inr (Or.inl rfl))]
        exact ⟨rfl, rfl, h4, h2⟩
      | some tt =>
        cases co with
        | none =>
          rw [processCard_discard cfg W cx stA _ (Or.inr (Or.inr rfl)),
            processCard_discard cfg W cx stB _ (Or.inr (Or.inr rfl))]
          exact ⟨rfl, rfl, h4, h2⟩
        | some cc =>
          cases le with
          | none =>
            rw [processCard_keyError cfg W cx stA tt cc lo herrA',
              processCard_keyError cfg W cx stB tt cc lo herrB']
            exact ⟨rfl, rfl, rfl, h2⟩
          | some href =>
            by_cases hdupA : job_id_of href ∈ stA.seen ∨ job_id_of href ∈ stA.inRun
            · rw [processCard_dup cfg W cx stA href tt cc lo herrA' hdupA] at h3c ⊢
              have hdupB : job_id_of href ∈ stB.seen ∨ job_id_of href ∈ stB.inRun := by
                rcases hdupA with h | h
                · exact Or.inl (h3c h)
                · exact h2 _ h
              rw [processCard_dup cfg W cx stB href tt cc lo herrB' hdupB]
              exact ⟨rfl, rfl, h4, h2⟩
            · by_cases hc : classifies cfg cx (strLower (strTrim tt))
                (extract_country (cardLocationText lo)) = true
              · have hjid : job_id_of href ∈ stB.seen := by
                  rw [processCard_accept cfg W cx stA href tt cc lo herrA' hdupA hc] at h3c
                  exact h3c (List.mem_cons_self _ _)
                rw [processCard_accept cfg W cx stA href tt cc lo herrA' hdupA hc,
                  processCard_dup cfg W cx stB href tt cc lo herrB' (Or.inl hjid)]
                refine ⟨rfl, rfl, herrB'.symm, ?_⟩
                intro id hid
                rcases List.mem_cons.mp hid with rfl | hid'
                · exact Or.inl hjid
                · exact h2 id hid'
              · have hcf : classifies cfg cx (strLower (strTrim tt))
                    (extract_country (cardLocationText lo)) = false := by simpa using hc
                rw [processCard_noMatch cfg W cx stA href tt cc lo herrA' hdupA hcf]
                by_cases hdupB : job_id_of href ∈ stB.seen ∨ job_id_of href ∈ stB.inRun
                · rw [processCard_dup cfg W cx stB href tt cc lo herrB' hdupB]
                  refine ⟨rfl, rfl, h4, ?_⟩
                  intro id hid
                  rcases List.mem_cons.mp hid with rfl | hid'
                  · exact hdupB
                  · exact h2 id hid'
                · rw [processCard_noMatch cfg W cx stB href tt cc lo herrB' hdupB hcf]
                  refine ⟨rfl, rfl, h4, ?_⟩
                  intro id hid
                  rcases List.mem_cons.mp hid with rfl | hid'
                  · exact Or.inr (List.mem_cons_self _ _)
                  · rcases h2 id hid' with h | h
                    · exact Or.inl h
                    · exact Or.inr (List.mem_cons_of_mem _ h)

theorem processCards_sim (cfg : Config) (W : World) (cx : Ctx) :
    ∀ (cards : List Card) (stA stB : PipeState),
      (∀ id ∈ stA.inRun, id ∈ stB.seen ∨ id ∈ stB.inRun) →
      ((cards.foldl (fun s c => processCard cfg W cx s c) stA)).seen ⊆ stB.seen →
      stA.err = stB.err →
      ((cards.foldl (fun s c => processCard cfg W cx s c) stB)).seen = stB.seen
    ∧ ((cards.foldl (fun s c => processCard cfg W cx s c) stB)).events = stB.events
    ∧ ((cards.foldl (fun s c => processCard cfg W cx s c) stA)).err
        = ((cards.foldl (fun s c => processCard cfg W cx s c) stB)).err
    ∧ (∀ id ∈ ((cards.foldl (fun s c => processCard cfg W cx s c) stA)).inRun,
        id ∈ ((cards.foldl (fun s c => processCard cfg W cx s c) stB)).seen ∨
          id ∈ ((cards.foldl (fun s c => processCard cfg W cx s c) stB)).inRun)
  | [], stA, stB, h2, h3, h4 => ⟨rfl, rfl, h4, h2⟩
  | c :: cs, stA, stB, h2, h3, h4 => by
    rw [List.foldl_cons] at h3 ⊢
    have hmono := (steps_foldl _ (fun c' => steps_processCard cfg W cx c') cs).mono
      (processCard cfg W cx stA c)
    have h3c : (processCard cfg W cx stA c).seen ⊆ stB.seen :=
      fun x hx => h3 (hmono hx)
    obtain ⟨hB1, hB2, hB3, hB4⟩ := processCard_sim cfg W cx c stA stB h2 h3c h4
    have h3' : ((cs.foldl (fun s c' => processCard cfg W cx s c') (processCard cfg W cx stA c))).seen
        ⊆ (processCard cfg W cx stB c).seen := by
      rw [hB1]; exact h3
    obtain ⟨k1, k2, k3, k4⟩ := processCards_sim cfg W cx cs
      (processCard cfg W cx stA c) (processCard cfg W cx stB c) hB4 h3' hB3
    exact ⟨by rw [k1, hB1], by rw [k2, hB2], k3, k4⟩

theorem pagesLoop_sim (cfg : Config) (W : World) (cx : Ctx) (q : Query) :
    ∀ (n i : Nat) (stA stB : PipeState),
      (∀ id ∈ stA.inRun, id ∈ stB.seen ∨ id ∈ stB.inRun) →
      (pagesLoop cfg W cx q n i stA).seen ⊆ stB.seen →
      stA.err = stB.err →
      (pagesLoop cfg W cx q n i stB).seen = stB.seen
    ∧ (∃ d, (pagesLoop cfg W cx q n i stB).events = stB.events ++ d ∧
        ∀ e ∈ d, isFetchEv e = true)
    ∧ (pagesLoop cfg W cx q n i stA).err = (pagesLoop cfg W cx q n i stB).err := by
  intro n
  induction n with
  | zero =>
    intro i stA stB h2 h3 h4
    exact ⟨rfl, ⟨[], by simp [pagesLoop], by simp⟩, h4⟩
  | succ n ih =>
    intro i stA stB h2 h3 h4
    by_cases herrA : stA.err = true
    · have herrB : stB.err = true := h4 ▸ herrA
      rw [pagesLoop_succ_err cfg W cx q n i stA herrA,
        pagesLoop_succ_err cfg W cx q n i stB herrB]
      exact ⟨rfl, ⟨[], by simp, by simp⟩, h4⟩
    · have herrA' : ¬ (stA.err = true) := herrA
      have herrB : ¬ (stB.err = true) := by rw [← h4]; exact herrA
      rcases hfetch : W.fetch { q with start := i * 25 } with _ | cards
      · rw [pagesLoop_succ_fail cfg W cx q n i stA hfetch herrA',
          pagesLoop_succ_fail cfg W cx q n i stB hfetch herrB]
        exact ⟨rfl, ⟨[Event.fetched { q with start := i * 25 }], rfl, by simp [isFetchEv]⟩,
          h4⟩
      · by_cases hemp : cards.isEmpty = true
        · rw [pagesLoop_succ_empty cfg W cx q n i stA cards hfetch hemp herrA',
            pagesLoop_succ_empty cfg W cx q n i stB cards hfetch hemp herrB]
          exact ⟨rfl, ⟨[Event.fetched { q with start := i * 25 }], rfl, by simp [isFetchEv]⟩,
            h4⟩
        · rw [pagesLoop_succ_page cfg W cx q n i stA cards hfetch hemp herrA'] at h3
          rw [pagesLoop_succ_page cfg W cx q n i stA cards hfetch hemp herrA',
            pagesLoop_succ_page cfg W cx q n i stB cards hfetch hemp herrB]
          set stA1 : PipeState :=
            { stA with events := stA.events ++ [Event.fetched { q with start := i * 25 }] }
            with hstA1
          set stB1 : PipeState :=
            { stB with events := stB.events ++ [Event.fetched { q with start := i * 25 }] }
            with hstB1
          have h2₁ : ∀ id ∈ stA1.inRun, id ∈ stB1.seen ∨ id ∈ stB1.inRun := h2
          have h4₁ : stA1.err = stB1.err := h4
          have hmono := (steps_pagesLoop cfg W cx q n (i + 1)).mono
            (cards.foldl (fun s c => processCard cfg W cx s c) stA1)
          have h3₁ : ((cards.foldl (fun s c => processCard cfg W cx s c) stA1)).seen
              ⊆ stB1.seen := fun x hx => h3 (hmono hx)
          obtain ⟨hB1, hB2, hB3, hB4⟩ := processCards_sim cfg W cx cards stA1 stB1 h2₁ h3₁ h4₁
          have h3' : (pagesLoop cfg W cx q n (i + 1)
              ((cards.foldl (fun s c => processCard cfg W cx s c) stA1))).seen
              ⊆ ((cards.foldl (fun s c => processCard cfg W cx s c) stB1)).seen := by
            rw [hB1]; exact h3
          obtain ⟨k1, ⟨d, kd, kall⟩, k3⟩ := ih (i + 1)
            ((cards.foldl (fun s c => processCard cfg W cx s c) stA1))
            ((cards.foldl (fun s c => processCard cfg W cx s c) stB1)) hB4 h3' hB3
          refine ⟨by rw [k1, hB1], ?_, k3⟩
          refine ⟨Event.fetched { q with start := i * 25 } :: d, ?_, ?_⟩
          · rw [kd, hB2]
            simp [hstB1]
          · intro e he
            rcases List.mem_cons.mp he with rfl | he'
            · simp [isFetchEv]
            · exact kall e he'

theorem process_jobs_absorb (cfg : Config) (W : World) (cx : Ctx) (q0 : Query)
    (st : PipeState) (h : st.err = true) : process_jobs cfg W cx q0 st = st := by
  rw [process_jobs, if_pos h]

theorem process_jobs_eq (cfg : Config) (W : World) (cx : Ctx) (q0 : Query)
    (st : PipeState) (h : ¬ (st.err = true)) :
    process_jobs cfg W cx q0 st
      = pagesLoop cfg W cx q0 cfg.maxPages 0 { st with inRun := ([] : List String) } := by
  rw [process_jobs, if_neg h]

theorem process_jobs_sim (cfg : Config) (W : World) (cx : Ctx) (q0 : Query)
    (stA stB : PipeState)
    (h3 : (process_jobs cfg W cx q0 stA).seen ⊆ stB.seen)
    (h4 : stA.err = stB.err) :
    (process_jobs cfg W cx q0 stB).seen = stB.seen
  ∧ (∃ d, (process_jobs cfg W cx q0 stB).events = stB.events ++ d ∧
      ∀ e ∈ d, isFetchEv e = true)
  ∧ (process_jobs cfg W cx q0 stA).err = (process_jobs cfg W cx q0 stB).err := by
  by_cases herrA : stA.err = true
  · have herrB : stB.err = true := h4 ▸ herrA
    rw [process_jobs_absorb cfg W cx q0 stA herrA, process_jobs_absorb cfg W cx q0 stB herrB]
    exact ⟨rfl, ⟨[], by simp, by simp⟩, h4⟩
  · have herrB : ¬ (stB.err = true) := by rw [← h4]; exact herrA
    rw [process_jobs_eq cfg W cx q0 stA herrA] at h3
    rw [process_jobs_eq cfg W cx q0 stA herrA, process_jobs_eq cfg W cx q0 stB herrB]
    exact pagesLoop_sim cfg W cx q0 cfg.maxPages 0 { stA with inRun := ([] : List String) }
      { stB with inRun := ([] : List String) } (by simp) h3 h4

theorem foldLocs_sim (cfg : Config) (W : World) (cx : Ctx) (q : String → Query) :
    ∀ (locs : List String) (stA stB : PipeState),
      ((locs.foldl (fun st loc => process_jobs cfg W cx (q loc) st) stA)).seen ⊆ stB.seen →
      stA.err = stB.err →
      ((locs.foldl (fun st loc => process_jobs cfg W cx (q loc) st) stB)).seen = stB.seen
    ∧ (∃ d, ((locs.foldl (fun st loc => process_jobs cfg W cx (q loc) st) stB)).events
          = stB.events ++ d ∧ ∀ e ∈ d, isFetchEv e = true)
    ∧ ((locs.foldl (fun st loc => process_jobs cfg W cx (q loc) st) stA)).err
        = ((locs.foldl (fun st loc => process_jobs cfg W cx (q loc) st) stB)).err
  | [], stA, stB, h3, h4 => ⟨rfl, ⟨[], by simp, by simp⟩, h4⟩
  | loc :: locs, stA, stB, h3, h4 => by
    rw [List.foldl_cons] at h3 ⊢
    have hmono : ∀ st : PipeState, st.seen ⊆
        ((locs.foldl (fun st loc' => process_jobs cfg W cx (q loc') st) st)).seen := by
      intro st
      exact (steps_foldl _ (fun loc' => steps_process_jobs cfg W cx (q loc')) locs).mono st
    have h3c : (process_jobs cfg W cx (q loc) stA).seen ⊆ stB.seen :=
      fun x hx => h3 (hmono _ hx)
    obtain ⟨hB1, ⟨d1, hd1, hall1⟩, hB3⟩ :=
      process_jobs_sim cfg W cx (q loc) stA stB h3c h4
    have h3' : ((locs.foldl (fun st loc' => process_jobs cfg W cx (q loc') st)
        (process_jobs cfg W cx (q loc) stA))).seen
        ⊆ (process_jobs cfg W cx (q loc) stB).seen := by
      rw [hB1]; exact h3
    obtain ⟨k1, ⟨d2, kd2, kall2⟩, k3⟩ := foldLocs_sim cfg W cx q locs
      (process_jobs cfg W cx (q loc) stA) (process_jobs cfg W cx (q loc) stB) h3' hB3
    refine ⟨by rw [k1, hB1], ⟨d1 ++ d2, ?_, ?_⟩, k3⟩
    · rw [kd2, hd1, List.append_assoc]
    · intro e he
      rcases List.mem_append.mp he with h | h
      · exact hall1 e h
      · exact kall2 e h

theorem run_category_sim (cfg : Config) (W : World) (c : Category) (stA stB : PipeState)
    (h3 : (run_category cfg W c stA).seen ⊆ stB.seen) (h4 : stA.err = stB.err) :
    (run_category cfg W c stB).seen = stB.seen
  ∧ (∃ d, (run_category cfg W c stB).events = stB.events ++ d ∧
      ∀ e ∈ d, isFetchEv e = true)
  ∧ (run_category cfg W c stA).err = (run_category cfg W c stB).err :=
  foldLocs_sim cfg W
    { keywords := cleaned_keywords c.keywords, category := c.name,
      expected_country := "United States",
      recipients := parse_recipients c.recipients_env, sheet := c.sheet }
    (fun loc =>
      { keywords := joinSep " OR " (cleaned_keywords c.keywords), location := loc,
        f_TPR := cfg.timeWindow, sortBy := "DD", start := 0 })
    (rotating_slice cfg.locations cfg.perRunLocations cfg.seed) stA stB h3 h4

theorem run_category_absorb (cfg : Config) (W : World) (c : Category) (st : PipeState)
    (h : st.err = true) : run_category cfg W c st = st := by
  have key : ∀ (locs : List String) (cx : Ctx) (q : String → Query),
      ((locs.foldl (fun st loc => process_jobs cfg W cx (q loc) st) st)) = st := by
    intro locs
    induction locs with
    | nil => intro cx q; rfl
    | cons loc locs ih =>
      intro cx q
      rw [List.foldl_cons, process_jobs_absorb cfg W cx (q loc) st h]
      exact ih cx q
  exact key (rotating_slice cfg.locations cfg.perRunLocations cfg.seed) _ _

theorem isFetchEv_not_row (e : Event) (h : isFetchEv e = true) : isRowEv e = false := by
  cases e <;> simp_all [isFetchEv, isRowEv]

theorem countRow_allFetch (a d : List Event) (hall : ∀ e ∈ d, isFetchEv e = true) :
    countEv isRowEv (a ++ d) = countEv isRowEv a := by
  rw [countEv_append]
  have hzero : countEv isRowEv d = 0 := by
    simp only [countEv, List.length_eq_zero]
    rw [List.filter_eq_nil_iff]
    intro e he
    rw [isFetchEv_not_row e (hall e he)]
    simp
  omega

/-- C4: running the Category Pipeline a second time against the same
(now grown) shared ledger and the same fetch results produces zero new
notifications and zero new persisted rows — for every configuration,
fetch oracle, category and starting state. -/
theorem claim_C4_idempotent (cfg : Config) (W : World) (c : Category) (st0 : PipeState) :
    countEv isNotifyEv (run_category cfg W c (run_category cfg W c st0)).events
      = countEv isNotifyEv (run_category cfg W c st0).events
  ∧ countEv isRowEv (run_category cfg W c (run_category cfg W c st0)).events
      = countEv isRowEv (run_category cfg W c st0).events := by
  by_cases h1 : (run_category cfg W c st0).err = true
  · rw [run_category_absorb cfg W c _ h1]
    exact ⟨rfl, rfl⟩
  · have h0 : st0.err = false := by
      by_contra h0
      have h0' : st0.err = true := by simpa using h0
      rw [run_category_absorb cfg W c st0 h0'] at h1
      exact h1 h0'
    have h4 : st0.err = (run_category cfg W c st0).err := by
      rw [h0]
      symm
      simpa using h1
    obtain ⟨-, ⟨d, hd, hall⟩, -⟩ :=
      run_category_sim cfg W c st0 (run_category cfg W c st0) (List.Subset.refl _) h4
    rw [hd]
    exact ⟨countNotify_allFetch _ d hall, countRow_allFetch _ d hall⟩

end JobScraper
